import Mathlib

/-
Verification development for the crawler in
src/pythontemplate/get_website_data/website_to_graph.py.

The file shallowly embeds the Python source:

* `Graph` models the slice of `networkx.DiGraph` that the source uses —
  insertion-ordered nodes carrying an optional `text_content` attribute and
  insertion-ordered directed edges carrying an optional `weight` attribute.
  An attribute is `none` when the underlying networkx attribute dictionary
  does not contain the corresponding key (networkx creates endpoint nodes
  of `add_edge` and plain `add_edge` edges with empty attribute
  dictionaries).
* The fetch side (`requests.get` + `BeautifulSoup`) is an external
  collaborator: a `Fetcher` oracle maps a call time and a URL either to the
  parsed page (its href list in document order and the text that
  `get_main_text` would assemble from its `p` tags) or to `none`, which
  stands for a network error or a non-2xx status, i.e. the situations in
  which `requests.get`/`raise_for_status` raise.
* Exceptions are modelled with `Except`/`Option`: `Option Graph` for
  `add_weighted_edge` (`none` = the `KeyError` raised by
  `graph[source][target]["weight"] += 1` on an edge without a `weight`
  attribute) and `Except CrawlErr` for the crawl itself.
* Serialization: `json.dump`/`json.load` move a structured value to and
  from disk unchanged, so the file system is modelled as a `File` that is
  missing, holds text that is not valid JSON, or holds a JSON value.
-/

/-- A fetched-and-parsed page as the source observes it through
BeautifulSoup: the `href` strings of its anchor tags in document order
(`soup.find_all("a", href=True)`), and the main text `get_main_text`
extracts from its `p` tags. -/
structure Page where
  links : List String
  mainText : String
  deriving DecidableEq, Repr

/-- The fetcher oracle: `requests.get` as seen by the program.  The first
argument is the time of the call (the number of events that have already
happened in this crawl), so a fetcher may answer differently when the same
URL is requested twice; `none` models a raising fetch (network error or
non-success status). -/
def Fetcher : Type := Nat → String → Option Page

/-- A fetcher is consistent when its answer depends only on the URL, never
on when the call is made. -/
def Fetcher.Consistent (fetch : Fetcher) : Prop :=
  ∀ i j u, fetch i u = fetch j u

/-- The slice of `networkx.DiGraph` used by the source: nodes in insertion
order with an optional `text_content` attribute, directed edges in
insertion order with an optional `weight` attribute. -/
structure Graph where
  nodes : List (String × Option String)
  edges : List ((String × String) × Option Nat)
  deriving DecidableEq, Repr

namespace Graph

/-- `nx.DiGraph()`. -/
def empty : Graph := ⟨[], []⟩

/-- `u in G.nodes`. -/
def hasNode (g : Graph) (u : String) : Bool :=
  g.nodes.any (fun p => p.1 == u)

/-- `G.has_edge(s, t)`. -/
def hasEdge (g : Graph) (s t : String) : Bool :=
  g.edges.any (fun e => e.1 == (s, t))

/-- The `text_content` attribute of node `u`: `none` when `u` is not a
node, `some none` when `u` is a node whose attribute dictionary has no
`text_content` key, `some (some txt)` otherwise. -/
def nodeText (g : Graph) (u : String) : Option (Option String) :=
  (g.nodes.find? (fun p => p.1 == u)).map (fun p => p.2)

/-- The `weight` attribute of edge `(s, t)`: `none` when there is no such
edge, `some none` when the edge exists without a `weight` attribute,
`some (some w)` otherwise. -/
def edgeWeight (g : Graph) (s t : String) : Option (Option Nat) :=
  (g.edges.find? (fun e => e.1 == (s, t))).map (fun e => e.2)

/-- `G.add_node(u, text_content=txt)`: networkx creates the node, or, when
it already exists, merges the keyword attributes into its attribute
dictionary (so an existing node's `text_content` is overwritten). -/
def add_node (g : Graph) (u : String) (txt : String) : Graph :=
  if g.hasNode u then
    ⟨g.nodes.map (fun p => if p.1 == u then (p.1, some txt) else p), g.edges⟩
  else
    ⟨g.nodes ++ [(u, some txt)], g.edges⟩

/-- The endpoint auto-creation performed by `G.add_edge`: a missing
endpoint is created with an empty attribute dictionary; an existing node
is left untouched. -/
def ensureNode (g : Graph) (u : String) : Graph :=
  if g.hasNode u then g else ⟨g.nodes ++ [(u, none)], g.edges⟩

/-- `G.add_edge(s, t)` (for `w = none`) and `G.add_edge(s, t, weight=n)`
(for `w = some n`): auto-creates missing endpoints (source first, then
target), then creates the edge with the given attributes, or merges the
given attributes into an existing edge's dictionary. -/
def add_edge (g : Graph) (s t : String) (w : Option Nat) : Graph :=
  let g1 := (g.ensureNode s).ensureNode t
  if g1.hasEdge s t then
    match w with
    | none => g1
    | some n =>
        ⟨g1.nodes, g1.edges.map (fun e => if e.1 == (s, t) then (e.1, some n) else e)⟩
  else
    ⟨g1.nodes, g1.edges ++ [((s, t), w)]⟩

end Graph

/-- `add_weighted_edge(graph=g, source, target)` from the source.  When the
edge exists, `graph[source][target]["weight"] += 1` raises `KeyError` if
the edge's attribute dictionary has no `weight` key — that is the `none`
result.  Otherwise `graph.add_edge(source, target, weight=1)`. -/
def add_weighted_edge (g : Graph) (source target : String) : Option Graph :=
  if g.hasEdge source target then
    match g.edges.find? (fun e => e.1 == (source, target)) with
    | some (_, some w) =>
        some ⟨g.nodes,
              g.edges.map (fun e =>
                if e.1 == (source, target) then (e.1, some (w + 1)) else e)⟩
    | _ => none
  else
    some (g.add_edge source target (some 1))

/-
===========================  The crawler  ===========================
-/

/-- Observable events of a crawl: a call of `requests.get` on a URL
(whether or not it succeeds), and a completed text extraction for a URL
(a successful run of `get_main_text`). -/
inductive Ev where
  | fetch (url : String)
  | extract (url : String)
  deriving DecidableEq, Repr

/-- The exceptions a crawl can raise (escape `website_to_graph` with).
`requests.exceptions.RequestException` from the first fetch is caught
inside `website_to_graph` and is therefore not listed here. -/
inductive CrawlErr where
  /-- `raise_for_status` (or the `requests.get` call) inside
  `get_main_text`, which has no `try`/`except`. -/
  | mainTextFetchError
  /-- `KeyError` from `graph[source][target]["weight"] += 1` in
  `add_weighted_edge` when the existing edge has no `weight` attribute. -/
  | weightKeyError
  /-- Python's `RecursionError`: the recursion depth is exhausted. -/
  | recursionError
  deriving DecidableEq, Repr

/-- The outcome of a crawl step: either the graph together with the event
trace (newest event first), or an uncaught exception. -/
def CrawlResult : Type := Except CrawlErr (Graph × List Ev)

/-- `get_main_text(url=url)` from the source: it re-fetches the URL
(`requests.get` + `raise_for_status`, with no exception handling) and
concatenates the text of the page's `p` tags.  `none` models the uncaught
exception of a failing fetch; the extracted text is the fetched page's
`mainText`. -/
def get_main_text (fetch : Fetcher) (time : Nat) (url : String) : Option String :=
  (fetch time url).map Page.mainText

/-- Python's `href.startswith("/")`, the follow-filter test of the
source: the href string begins with the slash character.  (Defined on the
character list so that it evaluates inside the kernel.) -/
def startsWithSlash (href : String) : Bool :=
  match href.data with
  | [] => false
  | c :: _ => c == '/'

/-- The `for link in soup.find_all("a", href=True)` loop of
`website_to_graph`, parameterised by the recursive call `visitF` (which
receives the root URL and the resolved link URL, the Python recursion
passing the resolved URL as both `previous_url` and `new_url`).  For each
href the loop resolves `urllib.parse.urljoin(root_url, href)`, and when
the href starts with `"/"` and is not exactly `"/"` it first recurses if
the resolved URL is not yet a node, then unconditionally calls
`add_weighted_edge(graph, previous_url, resolved)`. -/
def crawlLinks (visitF : String → String → Graph → List Ev → CrawlResult)
    (urljoin : String → String → String) (rootUrl previousUrl : String) :
    List String → Graph → List Ev → CrawlResult
  | [], g, tr => .ok (g, tr)
  | href :: rest, g, tr =>
    let newUrl := urljoin rootUrl href
    if startsWithSlash href && href != "/" then
      match (if g.hasNode newUrl then .ok (g, tr) else visitF rootUrl newUrl g tr : CrawlResult) with
      | .error e => .error e
      | .ok (g1, tr1) =>
        match add_weighted_edge g1 previousUrl newUrl with
        | none => .error .weightKeyError
        | some g2 => crawlLinks visitF urljoin rootUrl previousUrl rest g2 tr1
    else
      crawlLinks visitF urljoin rootUrl previousUrl rest g tr

/-- `website_to_graph(root_url, previous_url, new_url, website_graph)`
from the source, with the external collaborators abstracted: `urljoin` is
`urllib.parse.urljoin`, `fetch` is `requests.get` combined with the
BeautifulSoup parse, and `fuel` is the remaining Python recursion depth
(running out of it is `RecursionError`).

The body: fetch `new_url`; on a raising fetch, print and return the graph
unchanged (the caught branch).  Otherwise call
`website_graph.add_node(new_url, text_content=get_main_text(url=new_url))`
— a second, unprotected fetch of the same URL — and then run the link
loop over the anchors of the *first* response.  (The `text_content`
variable computed from the first response at line 44 of the source is
dead: the node attribute comes from `get_main_text`.) -/
def website_to_graph (urljoin : String → String → String) (fetch : Fetcher) :
    Nat → String → String → String → Graph → List Ev → CrawlResult
  | 0 => fun _ _ _ _ _ => .error .recursionError
  | fuel + 1 => fun rootUrl previousUrl newUrl g tr =>
    match fetch tr.length newUrl with
    | none => .ok (g, .fetch newUrl :: tr)
    | some page =>
      let tr1 : List Ev := .fetch newUrl :: tr
      match get_main_text fetch tr1.length newUrl with
      | none => .error .mainTextFetchError
      | some mainText =>
        let tr2 : List Ev := .extract newUrl :: .fetch newUrl :: tr1
        let g1 := g.add_node newUrl mainText
        crawlLinks
          (fun r w g' tr' => website_to_graph urljoin fetch fuel r w w g' tr')
          urljoin rootUrl previousUrl page.links g1 tr2

/-
===========================  The serializer  ===========================
-/

/-- Structured JSON data, as produced by `json.load` / consumed by
`json.dump`.  Objects are key-value lists; a value produced by `json.load`
has unique keys in every object (later duplicates in the file overwrite
earlier ones while parsing), and every `Json` below is meant to model such
a parsed value. -/
inductive Json where
  | null
  | bool (b : Bool)
  | num (n : Int)
  | str (s : String)
  | arr (elems : List Json)
  | obj (fields : List (String × Json))

/-- What a path refers to on disk: no file at all, a file whose contents
are not valid JSON, or a file holding the JSON value `data`.  `json.dump`
followed by `json.load` reproduces the dumped value, so a written graph
document is carried as its structured value. -/
inductive File where
  | missing
  | notJson
  | json (data : Json)

/-- The exceptions of the load path. -/
inductive LoadErr where
  /-- `FileNotFoundError` from `open`. -/
  | fileNotFound
  /-- `json.JSONDecodeError` from `json.load`. -/
  | jsonDecodeError
  /-- `KeyError` from a `d[k]` subscript whose key is absent. -/
  | keyError
  /-- `TypeError`: subscripting or iterating a value that does not
  support it, or (a strengthening of the source, see `asString`) a value
  of an unexpected type where the source expects a string. -/
  | typeError
  deriving DecidableEq, Repr

/-- Python's `d[k]`: `KeyError` when the key is missing, `TypeError` when
the subscripted value is not a dict.  (String/list subscripts take
integers, so a string key raises `TypeError` on them too.) -/
def getKey (j : Json) (k : String) : Except LoadErr Json :=
  match j with
  | .obj fields =>
    match fields.find? (fun kv => kv.1 == k) with
    | some kv => .ok kv.2
    | none => .error .keyError
  | _ => .error .typeError

/-- Python's `for x in v`: lists iterate their elements, dicts their keys,
strings their characters; other values raise `TypeError`. -/
def pyIter : Json → Except LoadErr (List Json)
  | .arr elems => .ok elems
  | .obj fields => .ok (fields.map (fun kv => .str kv.1))
  | .str s => .ok (s.toList.map (fun c => .str (String.mk [c])))
  | _ => .error .typeError

/-- Narrowing to a string.  The source's `page_main_text: str = ...`
annotation is not enforced at runtime and node ids may be any hashable
value in Python; requiring strings here only narrows the set of accepted
documents (every document written by `graph_to_json` uses strings), and no
claim depends on non-string ids or text. -/
def asString : Json → Except LoadErr String
  | .str s => .ok s
  | _ => .error .typeError

/-- One iteration of the node loop of `json_to_graph`:
`page_main_text = node["text_content"]` (the unused
`node.get("attributes", {})` of the source is dead code), then
`G.add_node(node["id"], text_content=page_main_text)`. -/
def addNodeFromJson (g : Graph) (node : Json) : Except LoadErr Graph := do
  let textJ ← getKey node "text_content"
  let txt ← asString textJ
  let idJ ← getKey node "id"
  let nodeId ← asString idJ
  .ok (g.add_node nodeId txt)

/-- One iteration of the edge loop of `json_to_graph`:
`G.add_edge(edge["source"], edge["target"])` — a plain `add_edge`, whose
edge gets no `weight` attribute. -/
def addEdgeFromJson (g : Graph) (edge : Json) : Except LoadErr Graph := do
  let sJ ← getKey edge "source"
  let s ← asString sJ
  let tJ ← getKey edge "target"
  let t ← asString tJ
  .ok (g.add_edge s t none)

/-- `json.dump` rendering of one node of `nx.node_link_data`: the node's
attribute dictionary (which contains `text_content` exactly when the
attribute is set) together with its `id`. -/
def nodeToJson : String × Option String → Json
  | (u, none) => .obj [("id", .str u)]
  | (u, some txt) => .obj [("text_content", .str txt), ("id", .str u)]

/-- `nx.node_link_data` rendering of one edge: its attribute dictionary
(`weight` exactly when set) together with `source` and `target`. -/
def edgeToJson : (String × String) × Option Nat → Json
  | ((s, t), none) => .obj [("source", .str s), ("target", .str t)]
  | ((s, t), some w) =>
      .obj [("weight", .num (Int.ofNat w)), ("source", .str s), ("target", .str t)]

/-- `nx.node_link_data(G)` for a `DiGraph`. -/
def node_link_data (g : Graph) : Json :=
  .obj [("directed", .bool true), ("multigraph", .bool false),
        ("graph", .obj []),
        ("nodes", .arr (g.nodes.map nodeToJson)),
        ("links", .arr (g.edges.map edgeToJson))]

/-- `graph_to_json(G, filepath)` from the source: `json.dump` of
`nx.node_link_data(G)` — the document that ends up in the file. -/
def graph_to_json (g : Graph) : File := .json (node_link_data g)

/-- `load_from_json(filepath)` from the source: `json.load` behind a
`try`, with both `FileNotFoundError` and `json.JSONDecodeError` caught,
printed and turned into `None`. -/
def load_from_json : File → Option Json
  | .missing => none
  | .notJson => none
  | .json data => some data

/-- `json_to_graph(filepath)` from the source.  The file is opened and
parsed with *no* exception handling (unlike `load_from_json`, which this
function does not use), so a missing file, invalid JSON, or a missing
required field escapes to the caller as an exception.  Then nodes are
rebuilt with their `text_content`, and edges with a plain `add_edge`. -/
def json_to_graph (file : File) : Except LoadErr Graph := do
  let data ← match file with
    | .missing => .error LoadErr.fileNotFound
    | .notJson => .error LoadErr.jsonDecodeError
    | .json d => .ok d
  let nodesJ ← getKey data "nodes"
  let nodeItems ← pyIter nodesJ
  let g ← nodeItems.foldlM addNodeFromJson Graph.empty
  let linksJ ← getKey data "links"
  let linkItems ← pyIter linksJ
  linkItems.foldlM addEdgeFromJson g

/-
=====================  Derived notions used by the claims  =====================
-/

namespace Graph

/-- Node keys are unique (networkx guarantees this for every real
`DiGraph`; on the list model it is an invariant). -/
def NodesNodup (g : Graph) : Prop := (g.nodes.map Prod.fst).Nodup

/-- Edge keys are unique. -/
def EdgesNodup (g : Graph) : Prop := (g.edges.map Prod.fst).Nodup

/-- Every edge's source and target are nodes (spec section 3's "no
dangling edges" invariant; networkx enforces it via endpoint
auto-creation). -/
def NoDangling (g : Graph) : Prop :=
  ∀ e ∈ g.edges, g.hasNode e.1.1 = true ∧ g.hasNode e.1.2 = true

/-- Every edge carries a `weight` attribute. -/
def AllWeighted (g : Graph) : Prop := ∀ e ∈ g.edges, e.2.isSome = true

/-- Every node carries a `text_content` attribute. -/
def AllTexted (g : Graph) : Prop := ∀ p ∈ g.nodes, p.2.isSome = true

/-- `g`'s nodes all appear in `g'`. -/
def SubNodes (g g' : Graph) : Prop :=
  ∀ u, g.hasNode u = true → g'.hasNode u = true

end Graph

/-- Number of `requests.get` calls for `u` recorded in a trace. -/
def fetchCount (tr : List Ev) (u : String) : Nat :=
  (tr.filter (fun e => e == Ev.fetch u)).length

/-- Number of completed text extractions for `u` recorded in a trace. -/
def extractCount (tr : List Ev) (u : String) : Nat :=
  (tr.filter (fun e => e == Ev.extract u)).length

/-- What one successful `add_weighted_edge` call does to the `weight` view
of its edge: create with weight 1, or increment.  (The `some none` input —
an existing weightless edge — makes `add_weighted_edge` raise instead, so
that branch is never reached by a successful call.) -/
def bumpWeight : Option (Option Nat) → Option (Option Nat)
  | none => some (some 1)
  | some none => some none
  | some (some n) => some (some (n + 1))

/-- `bumpWeight` iterated `n` times. -/
def bumpIter : Nat → Option (Option Nat) → Option (Option Nat)
  | 0, w => w
  | n + 1, w => bumpIter n (bumpWeight w)

/-- How many hrefs of a page pass the follow filter and resolve to `t`:
the `N` of claim C4's "N same-site hrefs to the same target". -/
def matchCount (urljoin : String → String → String) (rootUrl t : String)
    (links : List String) : Nat :=
  (links.filter (fun href =>
    startsWithSlash href && href != "/" && (urljoin rootUrl href == t))).length

/-- A fetcher describes a site contained in the URL set `U` when every
fetch outside `U` fails.  A finite site is one with `U` a (finite) list. -/
def Fetcher.SupportedBy (fetch : Fetcher) (U : List String) : Prop :=
  ∀ k u, u ∉ U → fetch k u = none

/-- The number of URLs of `U` that are not yet nodes of `g`: the
termination measure of the crawl on a finite site. -/
def missingCount (U : List String) (g : Graph) : Nat :=
  (U.filter (fun u => !g.hasNode u)).length

/-
=====================  Concrete inputs used by the claims  =====================
-/

/-- Scenario URL resolution: the scenario sites use site-rooted paths
("/", "/a", ...) as their URLs, on which `urllib.parse.urljoin` returns
the href itself. -/
def pathJoin : String → String → String := fun _ href => href

/-- Site for C1: the root links to `/a`, and fetching `/a` always fails. -/
def fetchC1 : Fetcher := fun _ u =>
  if u == "/" then some ⟨["/a"], "root text"⟩ else none

/-- Fetcher for C2: the very first fetch of the root succeeds, every
later fetch fails — the behaviour of a site that goes down mid-crawl. -/
def fetchC2 : Fetcher := fun t u =>
  if t == 0 && u == "/" then some ⟨[], "hello"⟩ else none

/-- Site for C3: a single page with no links at all. -/
def fetchC3 : Fetcher := fun _ u =>
  if u == "/" then some ⟨[], "hello"⟩ else none

/-- The cyclic site of C7 (spec section 8): `/` links to `/a`, `/a` links
to `/b`, and `/b` links back to `/a`. -/
def fetchC7 : Fetcher := fun _ u =>
  if u == "/" then some ⟨["/a"], "r"⟩
  else if u == "/a" then some ⟨["/b"], "a"⟩
  else if u == "/b" then some ⟨["/a"], "b"⟩
  else none

/-- The spec section 8 scenario site: the root page carries two hrefs to
`/a`, one external href and one bare `/` href; `/a` has no links. -/
def fetchC4 : Fetcher := fun _ u =>
  if u == "/" then some ⟨["/a", "/a", "http://other.com", "/"], "r"⟩
  else if u == "/a" then some ⟨[], "a"⟩
  else none

/-- A graph whose single node has no `text_content` attribute — exactly
what a crawl leaves behind for a URL whose fetch failed (see C1). -/
def gNoText : Graph := ⟨[("a", none)], []⟩

/-- A well-formed two-node graph whose edge has weight 2. -/
def gWeighted : Graph :=
  ⟨[("a", some "x"), ("b", some "y")], [(("a", "b"), some 2)]⟩

/-- A graph whose edge exists but carries no `weight` attribute — exactly
what `json_to_graph` produces (see C6). -/
def gUnweighted : Graph :=
  ⟨[("a", some "x"), ("b", some "y")], [(("a", "b"), none)]⟩

/-- A document whose node object lacks the required `text_content`
field. -/
def docMissingField : Json :=
  .obj [("nodes", .arr [.obj [("id", .str "a")]]), ("links", .arr [])]

/-- The graph-shaped facts that one successful recursive visit call
establishes, stated for an arbitrary function in the position of the
recursive call of `crawlLinks` (the visit is only ever entered on a URL
that is not yet a node): nodes only grow, the structural invariants are
preserved, the out-edges of URLs that were already nodes are untouched,
and the trace only grows. -/
def VisitSpecA (visitF : String → String → Graph → List Ev → CrawlResult) : Prop :=
  ∀ root w g tr g' tr', g.hasNode w = false → visitF root w g tr = .ok (g', tr') →
    Graph.SubNodes g g' ∧
    (g.NoDangling → g'.NoDangling) ∧
    (g.AllWeighted → g'.AllWeighted) ∧
    (g.EdgesNodup → g'.EdgesNodup) ∧
    (∀ s, g.hasNode s = true → ∀ t, g'.edgeWeight s t = g.edgeWeight s t) ∧
    ∃ δ, tr' = δ ++ tr

/-- Bound on the events `δ` that a crawl fragment appends when run from
graph `g`, ending in graph `g'`: each URL is fetched at most twice and
extracted at most once, every fetched URL was not a node before and is a
node after, and extraction implies fetching. -/
def TraceBound (g g' : Graph) (δ : List Ev) : Prop :=
  ∀ w, fetchCount δ w ≤ 2 ∧ extractCount δ w ≤ 1 ∧
    (0 < fetchCount δ w → g.hasNode w = false ∧ g'.hasNode w = true) ∧
    (0 < extractCount δ w → 0 < fetchCount δ w)

/-- The trace-shaped fact about one recursive visit call: it appends
either events satisfying `TraceBound`, or — when its fetch fails — the
single failed fetch event, leaving the graph unchanged (the failed URL
only becomes a node through the caller's subsequent edge add). -/
def VisitSpecB (visitF : String → String → Graph → List Ev → CrawlResult) : Prop :=
  ∀ root w g tr g' tr', g.NoDangling → g.hasNode w = false →
    visitF root w g tr = .ok (g', tr') →
    ∃ δ, tr' = δ ++ tr ∧ (TraceBound g g' δ ∨ (δ = [Ev.fetch w] ∧ g' = g))

/-
=====================  Basic lemmas about the graph store  =====================
-/

namespace Graph

theorem subNodes_refl (g : Graph) : SubNodes g g := fun _ h => h

theorem subNodes_trans {g1 g2 g3 : Graph} (h1 : SubNodes g1 g2)
    (h2 : SubNodes g2 g3) : SubNodes g1 g3 := fun u h => h2 u (h1 u h)

theorem not_hasNode_of_subNodes {g g' : Graph} (hs : SubNodes g g')
    {x : String} (h : g'.hasNode x = false) : g.hasNode x = false := by
  cases hx : g.hasNode x
  · rfl
  · rw [hs x hx] at h; cases h

theorem edges_ensureNode (g : Graph) (u : String) :
    (g.ensureNode u).edges = g.edges := by
  unfold ensureNode; split <;> rfl

theorem hasEdge_ensureNode (g : Graph) (u s t : String) :
    (g.ensureNode u).hasEdge s t = g.hasEdge s t := by
  unfold ensureNode; split <;> rfl

theorem edgeWeight_ensureNode (g : Graph) (u s t : String) :
    (g.ensureNode u).edgeWeight s t = g.edgeWeight s t := by
  unfold ensureNode; split <;> rfl

theorem hasNode_ensureNode_self (g : Graph) (u : String) :
    (g.ensureNode u).hasNode u = true := by
  unfold ensureNode
  cases h : g.hasNode u
  · have h' : g.nodes.any (fun p => p.1 == u) = false := h
    simp [h, hasNode, List.any_append, h']
  · simp [h]

theorem subNodes_ensureNode (g : Graph) (u : String) :
    SubNodes g (g.ensureNode u) := by
  intro v hv
  unfold ensureNode
  split
  · exact hv
  · simp only [hasNode, List.any_append] at hv ⊢
    simp [hasNode] at hv
    simp [hv]

theorem hasNode_ensureNode_of_ne {g : Graph} {u v : String} (hne : u ≠ v)
    (h : g.hasNode v = false) : (g.ensureNode u).hasNode v = false := by
  unfold ensureNode
  split
  · exact h
  · simp only [hasNode, List.any_append]
    simp only [hasNode] at h
    simp [h, hne]

theorem find?_nodes_eq_none {g : Graph} {u : String} (h : g.hasNode u = false) :
    g.nodes.find? (fun p => p.1 == u) = none := by
  rw [List.find?_eq_none]
  intro p hp
  simp only [hasNode] at h
  have := (List.any_eq_false).mp h p hp
  simpa using this

theorem find?_edges_eq_none {g : Graph} {s t : String} (h : g.hasEdge s t = false) :
    g.edges.find? (fun e => e.1 == (s, t)) = none := by
  rw [List.find?_eq_none]
  intro e he
  simp only [hasEdge] at h
  have := (List.any_eq_false).mp h e he
  simpa using this

theorem hasNode_of_nodeText {g : Graph} {v : String} {a : Option String}
    (h : g.nodeText v = some a) : g.hasNode v = true := by
  cases hf : g.nodes.find? (fun p => p.1 == v) with
  | none => simp [nodeText, hf] at h
  | some p =>
    have hp := List.mem_of_find?_eq_some hf
    have hps := List.find?_some hf
    simp only [hasNode, List.any_eq_true]
    exact ⟨p, hp, hps⟩

theorem nodeText_ensureNode_fresh {g : Graph} {u : String}
    (h : g.hasNode u = false) : (g.ensureNode u).nodeText u = some none := by
  unfold ensureNode
  rw [if_neg (by simp [h])]
  simp only [nodeText, List.find?_append, find?_nodes_eq_none h]
  simp

theorem nodeText_ensureNode_of_some {g : Graph} {u v : String} {a : Option String}
    (h : g.nodeText v = some a) : (g.ensureNode u).nodeText v = some a := by
  unfold ensureNode
  split
  · exact h
  · rcases Option.map_eq_some'.mp h with ⟨p, hp, hpa⟩
    simp only [nodeText, List.find?_append, hp]
    simp [hpa]

end Graph

namespace Graph

theorem edges_add_node (g : Graph) (u : String) (txt : String) :
    (g.add_node u txt).edges = g.edges := by
  unfold add_node; split <;> rfl

theorem hasEdge_add_node (g : Graph) (u txt s t : String) :
    (g.add_node u txt).hasEdge s t = g.hasEdge s t := by
  unfold add_node; split <;> rfl

theorem edgeWeight_add_node (g : Graph) (u txt s t : String) :
    (g.add_node u txt).edgeWeight s t = g.edgeWeight s t := by
  unfold add_node; split <;> rfl

theorem add_node_fresh {g : Graph} {u : String} (txt : String)
    (h : g.hasNode u = false) :
    g.add_node u txt = ⟨g.nodes ++ [(u, some txt)], g.edges⟩ := by
  unfold add_node
  rw [if_neg (by simp [h])]

theorem any_key_map_update (ns : List (String × Option String)) (u : String)
    (txt : String) (v : String) :
    (ns.map (fun p => if p.1 == u then (p.1, some txt) else p)).any
        (fun p => p.1 == v) = ns.any (fun p => p.1 == v) := by
  rw [List.any_map]
  congr 1
  funext p
  simp only [Function.comp]
  split <;> rfl

theorem hasNode_add_node_self (g : Graph) (u : String) (txt : String) :
    (g.add_node u txt).hasNode u = true := by
  unfold add_node
  cases h : g.hasNode u
  · have h' : g.nodes.any (fun p => p.1 == u) = false := h
    simp [h, hasNode, List.any_append, h']
  · rw [if_pos rfl]
    show (g.nodes.map _).any _ = true
    rw [any_key_map_update]
    exact h

theorem subNodes_add_node (g : Graph) (u : String) (txt : String) :
    SubNodes g (g.add_node u txt) := by
  intro v hv
  unfold add_node
  split
  · show (g.nodes.map _).any _ = true
    rw [any_key_map_update]
    exact hv
  · simp only [hasNode, List.any_append]
    simp only [hasNode] at hv
    simp [hv]

theorem noDangling_add_node {g : Graph} (u : String) (txt : String)
    (h : g.NoDangling) : (g.add_node u txt).NoDangling := by
  intro e he
  rw [edges_add_node] at he
  rcases h e he with ⟨h1, h2⟩
  exact ⟨subNodes_add_node g u txt _ h1, subNodes_add_node g u txt _ h2⟩

theorem allWeighted_add_node {g : Graph} (u : String) (txt : String)
    (h : g.AllWeighted) : (g.add_node u txt).AllWeighted := by
  intro e he
  rw [edges_add_node] at he
  exact h e he

theorem edgesNodup_add_node {g : Graph} (u : String) (txt : String)
    (h : g.EdgesNodup) : (g.add_node u txt).EdgesNodup := by
  unfold EdgesNodup
  rw [edges_add_node]
  exact h

end Graph

namespace Graph

theorem hasNode_mk (ns : List (String × Option String))
    (es : List ((String × String) × Option Nat)) (u : String) :
    Graph.hasNode ⟨ns, es⟩ u = ns.any (fun p => p.1 == u) := rfl

theorem add_edge_fresh {g : Graph} {s t : String} (w : Option Nat)
    (h : g.hasEdge s t = false) :
    g.add_edge s t w = ⟨((g.ensureNode s).ensureNode t).nodes, g.edges ++ [((s, t), w)]⟩ := by
  show (if ((g.ensureNode s).ensureNode t).hasEdge s t then _ else _) = _
  rw [hasEdge_ensureNode, hasEdge_ensureNode]
  rw [if_neg (by simp [h])]
  rw [edges_ensureNode, edges_ensureNode]

theorem edgeWeight_isSome_of_hasEdge {g : Graph} {s t : String}
    (h : g.hasEdge s t = true) : (g.edgeWeight s t).isSome = true := by
  simp only [hasEdge, List.any_eq_true] at h
  have hs : (g.edges.find? (fun e => e.1 == (s, t))).isSome := List.find?_isSome.mpr h
  cases hf : g.edges.find? (fun e => e.1 == (s, t)) with
  | none => rw [hf] at hs; cases hs
  | some e => simp [edgeWeight, hf]

theorem awe_of_not_hasEdge {g : Graph} {s t : String} (h : g.hasEdge s t = false) :
    add_weighted_edge g s t = some (g.add_edge s t (some 1)) := by
  unfold add_weighted_edge
  rw [if_neg (by simp [h])]

theorem find?_key_map_update (es : List ((String × String) × Option Nat))
    (k : String × String) (n : Nat) (k' : String × String) :
    (es.map (fun e => if e.1 == k then (e.1, some n) else e)).find? (fun e => e.1 == k')
      = (es.find? (fun e => e.1 == k')).map
          (fun e => if e.1 == k then (e.1, some n) else e) := by
  have hcomp : ((fun (e : (String × String) × Option Nat) => e.1 == k') ∘
      (fun e => if e.1 == k then (e.1, some n) else e)) = (fun e => e.1 == k') := by
    funext e
    simp only [Function.comp]
    split <;> rfl
  rw [List.find?_map, hcomp]

theorem awe_of_weight {g : Graph} {s t : String} {w : Nat}
    (h : g.edgeWeight s t = some (some w)) :
    add_weighted_edge g s t =
      some ⟨g.nodes, g.edges.map (fun e =>
        if e.1 == (s, t) then (e.1, some (w + 1)) else e)⟩ := by
  rcases Option.map_eq_some'.mp h with ⟨e0, hfind, he0⟩
  have hedge : g.hasEdge s t = true := by
    have hps := List.find?_some hfind
    simp only [hasEdge, List.any_eq_true]
    exact ⟨e0, List.mem_of_find?_eq_some hfind, hps⟩
  have he0' : e0 = (e0.1, some w) := by
    cases e0
    simp only at he0
    rw [he0]
  unfold add_weighted_edge
  rw [if_pos hedge, hfind, he0']

theorem awe_none_of_weightless {g : Graph} {s t : String}
    (h : g.edgeWeight s t = some none) : add_weighted_edge g s t = none := by
  rcases Option.map_eq_some'.mp h with ⟨e0, hfind, he0⟩
  have hedge : g.hasEdge s t = true := by
    have hps := List.find?_some hfind
    simp only [hasEdge, List.any_eq_true]
    exact ⟨e0, List.mem_of_find?_eq_some hfind, hps⟩
  have he0' : e0 = (e0.1, none) := by
    cases e0
    simp only at he0
    rw [he0]
  unfold add_weighted_edge
  rw [if_pos hedge, hfind, he0']

theorem edgeWeight_awe_self {g g' : Graph} {s t : String}
    (h : add_weighted_edge g s t = some g') :
    g'.edgeWeight s t = bumpWeight (g.edgeWeight s t) := by
  cases hw : g.edgeWeight s t with
  | none =>
    have hedge : g.hasEdge s t = false := by
      cases he : g.hasEdge s t
      · rfl
      · have := edgeWeight_isSome_of_hasEdge he
        rw [hw] at this
        cases this
    rw [awe_of_not_hasEdge hedge, add_edge_fresh _ hedge] at h
    cases h
    show Graph.edgeWeight ⟨_, g.edges ++ [((s, t), some 1)]⟩ s t = _
    simp only [edgeWeight, List.find?_append, find?_edges_eq_none hedge]
    simp [bumpWeight]
  | some wv =>
    cases wv with
    | none =>
      rw [awe_none_of_weightless hw] at h
      cases h
    | some w =>
      rw [awe_of_weight hw] at h
      cases h
      rcases Option.map_eq_some'.mp hw with ⟨e0, hfind, he0⟩
      have hps := List.find?_some hfind
      show Graph.edgeWeight ⟨g.nodes, _⟩ s t = _
      simp only [edgeWeight, find?_key_map_update, hfind, Option.map_some']
      rw [if_pos hps]
      simp [bumpWeight]

theorem edgeWeight_awe_other {g g' : Graph} {s t x y : String}
    (h : add_weighted_edge g s t = some g') (hne : (x, y) ≠ (s, t)) :
    g'.edgeWeight x y = g.edgeWeight x y := by
  cases hw : g.edgeWeight s t with
  | none =>
    have hedge : g.hasEdge s t = false := by
      cases he : g.hasEdge s t
      · rfl
      · have := edgeWeight_isSome_of_hasEdge he
        rw [hw] at this
        cases this
    rw [awe_of_not_hasEdge hedge, add_edge_fresh _ hedge] at h
    cases h
    show Graph.edgeWeight ⟨_, g.edges ++ [((s, t), some 1)]⟩ x y = _
    simp only [edgeWeight, List.find?_append]
    have hbe : ((s, t) == (x, y)) = false := by
      cases hb : ((s, t) == (x, y))
      · rfl
      · exact absurd (eq_of_beq hb).symm hne
    have hlast : List.find? (fun e => e.1 == (x, y)) [((s, t), some 1)] = none := by
      simp [List.find?, hbe]
    rw [hlast, Option.or_none]
  | some wv =>
    cases wv with
    | none =>
      rw [awe_none_of_weightless hw] at h
      cases h
    | some w =>
      rw [awe_of_weight hw] at h
      cases h
      show Graph.edgeWeight ⟨g.nodes, _⟩ x y = _
      simp only [edgeWeight, find?_key_map_update]
      cases hfx : g.edges.find? (fun e => e.1 == (x, y)) with
      | none => simp
      | some e1 =>
        have hps := List.find?_some hfx
        have hne1 : (e1.1 == (s, t)) = false := by
          cases hb : (e1.1 == (s, t))
          · rfl
          · exact absurd (eq_of_beq hb) (by rw [eq_of_beq hps]; exact hne)
        simp only [hfx, Option.map_some']
        rw [if_neg (by simp [hne1])]

end Graph

namespace Graph

theorem hasEdge_eq_false_of_edgeWeight_none {g : Graph} {s t : String}
    (hw : g.edgeWeight s t = none) : g.hasEdge s t = false := by
  cases he : g.hasEdge s t
  · rfl
  · have := edgeWeight_isSome_of_hasEdge he
    rw [hw] at this
    cases this

/-- The two successful shapes of `add_weighted_edge`: creation of a fresh
edge of weight 1, or an in-place increment of an existing weight. -/
theorem awe_cases {g g' : Graph} {s t : String}
    (h : add_weighted_edge g s t = some g') :
    (g.hasEdge s t = false ∧
      g' = ⟨((g.ensureNode s).ensureNode t).nodes, g.edges ++ [((s, t), some 1)]⟩) ∨
    (∃ w, g.edgeWeight s t = some (some w) ∧
      g' = ⟨g.nodes, g.edges.map (fun e =>
        if e.1 == (s, t) then (e.1, some (w + 1)) else e)⟩) := by
  cases hw : g.edgeWeight s t with
  | none =>
    have hedge := hasEdge_eq_false_of_edgeWeight_none hw
    rw [awe_of_not_hasEdge hedge, add_edge_fresh _ hedge] at h
    cases h
    exact Or.inl ⟨hedge, rfl⟩
  | some wv =>
    cases wv with
    | none =>
      rw [awe_none_of_weightless hw] at h
      cases h
    | some w =>
      rw [awe_of_weight hw] at h
      cases h
      exact Or.inr ⟨w, rfl, rfl⟩

theorem mem_edges_of_edgeWeight_some {g : Graph} {s t : String} {wv : Option Nat}
    (hw : g.edgeWeight s t = some wv) :
    ((s, t), wv) ∈ g.edges := by
  rcases Option.map_eq_some'.mp hw with ⟨e0, hfind, he0⟩
  have hps := List.find?_some hfind
  have hkey : e0.1 = (s, t) := eq_of_beq hps
  have hmem := List.mem_of_find?_eq_some hfind
  have : e0 = ((s, t), wv) := by
    cases e0
    simp only at hkey he0
    rw [hkey, he0]
  rw [this] at hmem
  exact hmem

theorem awe_subNodes {g g' : Graph} {s t : String}
    (h : add_weighted_edge g s t = some g') : SubNodes g g' := by
  intro x hx
  rcases awe_cases h with ⟨_, rfl⟩ | ⟨w, _, rfl⟩
  · show ((g.ensureNode s).ensureNode t).hasNode x = true
    exact subNodes_ensureNode _ t x (subNodes_ensureNode g s x hx)
  · exact hx

theorem awe_hasNode_source {g g' : Graph} {s t : String}
    (h : add_weighted_edge g s t = some g') (hnd : g.NoDangling) :
    g'.hasNode s = true := by
  rcases awe_cases h with ⟨_, rfl⟩ | ⟨w, hw, rfl⟩
  · show ((g.ensureNode s).ensureNode t).hasNode s = true
    exact subNodes_ensureNode _ t s (hasNode_ensureNode_self g s)
  · exact (hnd _ (mem_edges_of_edgeWeight_some hw)).1

theorem awe_hasNode_target {g g' : Graph} {s t : String}
    (h : add_weighted_edge g s t = some g') (hnd : g.NoDangling) :
    g'.hasNode t = true := by
  rcases awe_cases h with ⟨_, rfl⟩ | ⟨w, hw, rfl⟩
  · show ((g.ensureNode s).ensureNode t).hasNode t = true
    exact hasNode_ensureNode_self _ t
  · exact (hnd _ (mem_edges_of_edgeWeight_some hw)).2

theorem awe_noDangling {g g' : Graph} {s t : String}
    (h : add_weighted_edge g s t = some g') (hnd : g.NoDangling) :
    g'.NoDangling := by
  have hsub := awe_subNodes h
  intro e he
  rcases awe_cases h with ⟨hedge, hg'⟩ | ⟨w, hw, hg'⟩
  · rw [hg'] at he ⊢
    rcases List.mem_append.mp he with hold | hnew
    · rcases hnd e hold with ⟨h1, h2⟩
      rw [hg'] at hsub
      exact ⟨hsub _ h1, hsub _ h2⟩
    · have : e = ((s, t), some 1) := by simpa using hnew
      rw [this]
      constructor
      · show ((g.ensureNode s).ensureNode t).hasNode s = true
        exact subNodes_ensureNode _ t s (hasNode_ensureNode_self g s)
      · show ((g.ensureNode s).ensureNode t).hasNode t = true
        exact hasNode_ensureNode_self _ t
  · rw [hg'] at he ⊢
    rcases List.mem_map.mp he with ⟨e0, he0, rfl⟩
    have hkey : (if e0.1 == (s, t) then (e0.1, some (w + 1)) else e0).1 = e0.1 := by
      split <;> rfl
    rw [hkey]
    rcases hnd e0 he0 with ⟨h1, h2⟩
    exact ⟨h1, h2⟩

theorem awe_allWeighted {g g' : Graph} {s t : String}
    (h : add_weighted_edge g s t = some g') (haw : g.AllWeighted) :
    g'.AllWeighted := by
  intro e he
  rcases awe_cases h with ⟨_, hg'⟩ | ⟨w, _, hg'⟩
  · rw [hg'] at he
    rcases List.mem_append.mp he with hold | hnew
    · exact haw e hold
    · have : e = ((s, t), some 1) := by simpa using hnew
      rw [this]
      rfl
  · rw [hg'] at he
    rcases List.mem_map.mp he with ⟨e0, he0, rfl⟩
    split
    · rfl
    · exact haw e0 he0

theorem awe_edgesNodup {g g' : Graph} {s t : String}
    (h : add_weighted_edge g s t = some g') (hen : g.EdgesNodup) :
    g'.EdgesNodup := by
  rcases awe_cases h with ⟨hedge, hg'⟩ | ⟨w, _, hg'⟩
  · rw [hg']
    show ((g.edges ++ [((s, t), some 1)]).map Prod.fst).Nodup
    rw [List.map_append]
    rw [List.nodup_append]
    refine ⟨hen, by simp, ?_⟩
    intro k hk hk'
    have hkst : k = (s, t) := by simpa using hk'
    rcases List.mem_map.mp hk with ⟨e, he, hke⟩
    have : (e.1 == (s, t)) = true := by rw [hke, hkst]; simp
    have hany : g.hasEdge s t = true :=
      List.any_eq_true.mpr ⟨e, he, this⟩
    rw [hany] at hedge
    cases hedge
  · rw [hg']
    show ((g.edges.map fun e =>
      if e.1 == (s, t) then (e.1, some (w + 1)) else e).map Prod.fst).Nodup
    rw [List.map_map]
    have : (Prod.fst ∘ fun (e : (String × String) × Option Nat) =>
        if e.1 == (s, t) then (e.1, some (w + 1)) else e) = Prod.fst := by
      funext e
      simp only [Function.comp]
      split <;> rfl
    rw [this]
    exact hen

end Graph

/-
=====================  Step lemmas for the crawler  =====================
-/

theorem crawlLinks_nil (visitF : String → String → Graph → List Ev → CrawlResult)
    (uj : String → String → String) (root prev : String) (g : Graph) (tr : List Ev) :
    crawlLinks visitF uj root prev [] g tr = .ok (g, tr) := rfl

theorem crawlLinks_cons (visitF : String → String → Graph → List Ev → CrawlResult)
    (uj : String → String → String) (root prev href : String) (rest : List String)
    (g : Graph) (tr : List Ev) :
    crawlLinks visitF uj root prev (href :: rest) g tr =
      if startsWithSlash href && href != "/" then
        match (if g.hasNode (uj root href) then .ok (g, tr)
               else visitF root (uj root href) g tr : CrawlResult) with
        | .error e => .error e
        | .ok (g1, tr1) =>
          match add_weighted_edge g1 prev (uj root href) with
          | none => .error .weightKeyError
          | some g2 => crawlLinks visitF uj root prev rest g2 tr1
      else crawlLinks visitF uj root prev rest g tr := rfl

theorem website_to_graph_zero (uj : String → String → String) (fetch : Fetcher)
    (root prev u : String) (g : Graph) (tr : List Ev) :
    website_to_graph uj fetch 0 root prev u g tr = .error .recursionError := rfl

theorem website_to_graph_succ (uj : String → String → String) (fetch : Fetcher)
    (fuel : Nat) (root prev u : String) (g : Graph) (tr : List Ev) :
    website_to_graph uj fetch (fuel + 1) root prev u g tr =
      match fetch tr.length u with
      | none => .ok (g, .fetch u :: tr)
      | some page =>
        match get_main_text fetch (Ev.fetch u :: tr).length u with
        | none => .error .mainTextFetchError
        | some mainText =>
          crawlLinks (fun r w g' tr' => website_to_graph uj fetch fuel r w w g' tr')
            uj root prev page.links (g.add_node u mainText)
            (.extract u :: .fetch u :: .fetch u :: tr) := rfl

/-
=====================  The crawl invariants (bundle A)  =====================
-/

theorem crawlLinks_specA {visitF : String → String → Graph → List Ev → CrawlResult}
    (hA : VisitSpecA visitF) (uj : String → String → String) (root prev : String) :
    ∀ (links : List String) (g : Graph) (tr : List Ev) (g' : Graph) (tr' : List Ev),
      crawlLinks visitF uj root prev links g tr = .ok (g', tr') →
      Graph.SubNodes g g' ∧
      (g.NoDangling → g'.NoDangling) ∧
      (g.AllWeighted → g'.AllWeighted) ∧
      (g.EdgesNodup → g'.EdgesNodup) ∧
      (∀ s, g.hasNode s = true → s ≠ prev → ∀ t, g'.edgeWeight s t = g.edgeWeight s t) ∧
      ∃ δ, tr' = δ ++ tr := by
  intro links
  induction links with
  | nil =>
    intro g tr g' tr' h
    rw [crawlLinks_nil] at h
    cases h
    exact ⟨Graph.subNodes_refl g, id, id, id, fun s _ _ t => rfl, [], rfl⟩
  | cons href rest ih =>
    intro g tr g' tr' h
    rw [crawlLinks_cons] at h
    by_cases hfollow : (startsWithSlash href && href != "/") = true
    · rw [if_pos hfollow] at h
      cases hn : g.hasNode (uj root href) with
      | true =>
        rw [if_pos (by rw [hn])] at h
        dsimp only at h
        cases hawe : add_weighted_edge g prev (uj root href) with
        | none => rw [hawe] at h; cases h
        | some g2 =>
          rw [hawe] at h
          rcases ih g2 tr g' tr' h with ⟨hsub, hnd, haw, hen, hstab, δ, hδ⟩
          refine ⟨Graph.subNodes_trans (Graph.awe_subNodes hawe) hsub,
            fun x => hnd (Graph.awe_noDangling hawe x),
            fun x => haw (Graph.awe_allWeighted hawe x),
            fun x => hen (Graph.awe_edgesNodup hawe x), ?_, δ, hδ⟩
          intro s hs hsp t
          rw [hstab s (Graph.awe_subNodes hawe s hs) hsp t]
          exact Graph.edgeWeight_awe_other hawe (by simp [hsp])
      | false =>
        rw [if_neg (by rw [hn]; simp)] at h
        cases hv : visitF root (uj root href) g tr with
        | error e => rw [hv] at h; cases h
        | ok p =>
          obtain ⟨g1, tr1⟩ := p
          rw [hv] at h
          dsimp only at h
          rcases hA root (uj root href) g tr g1 tr1 hn hv with
            ⟨hsub1, hnd1, haw1, hen1, hstab1, δ1, hδ1⟩
          cases hawe : add_weighted_edge g1 prev (uj root href) with
          | none => rw [hawe] at h; cases h
          | some g2 =>
            rw [hawe] at h
            rcases ih g2 tr1 g' tr' h with ⟨hsub, hnd, haw, hen, hstab, δ2, hδ2⟩
            refine ⟨Graph.subNodes_trans hsub1
                (Graph.subNodes_trans (Graph.awe_subNodes hawe) hsub),
              fun x => hnd (Graph.awe_noDangling hawe (hnd1 x)),
              fun x => haw (Graph.awe_allWeighted hawe (haw1 x)),
              fun x => hen (Graph.awe_edgesNodup hawe (hen1 x)), ?_, ?_⟩
            · intro s hs hsp t
              rw [hstab s (Graph.awe_subNodes hawe s (hsub1 s hs)) hsp t]
              rw [Graph.edgeWeight_awe_other hawe (by simp [hsp])]
              exact hstab1 s hs t
            · exact ⟨δ2 ++ δ1, by rw [hδ2, hδ1, List.append_assoc]⟩
    · rw [if_neg hfollow] at h
      exact ih g tr g' tr' h

theorem visit_specA (uj : String → String → String) (fetch : Fetcher) :
    ∀ fuel : Nat,
      VisitSpecA (fun r w g tr => website_to_graph uj fetch fuel r w w g tr) := by
  intro fuel
  induction fuel with
  | zero =>
    intro root w g tr g' tr' hw h
    dsimp only at h
    rw [website_to_graph_zero] at h
    cases h
  | succ fuel ih =>
    intro root w g tr g' tr' hw h
    dsimp only at h
    rw [website_to_graph_succ] at h
    cases hf : fetch tr.length w with
    | none =>
      rw [hf] at h
      cases h
      exact ⟨Graph.subNodes_refl g, id, id, id, fun s _ t => rfl, [Ev.fetch w], rfl⟩
    | some page =>
      rw [hf] at h
      cases hm : get_main_text fetch (Ev.fetch w :: tr).length w with
      | none => rw [hm] at h; cases h
      | some mainText =>
        rw [hm] at h
        rcases crawlLinks_specA ih uj root w page.links
            (g.add_node w mainText) _ g' tr' h with
          ⟨hsub, hnd, haw, hen, hstab, δ, hδ⟩
        refine ⟨Graph.subNodes_trans (Graph.subNodes_add_node g w mainText) hsub,
          fun x => hnd (Graph.noDangling_add_node w mainText x),
          fun x => haw (Graph.allWeighted_add_node w mainText x),
          fun x => hen (Graph.edgesNodup_add_node w mainText x), ?_, ?_⟩
        · intro s hs t
          have hsw : s ≠ w := by
            intro hcontra
            rw [hcontra] at hs
            rw [hs] at hw
            cases hw
          rw [hstab s (Graph.subNodes_add_node g w mainText s hs) hsw t]
          exact Graph.edgeWeight_add_node g w mainText s t
        · exact ⟨δ ++ [Ev.extract w, Ev.fetch w, Ev.fetch w],
            by rw [hδ, List.append_assoc]; rfl⟩

/-
=====================  Weight accounting (bundle E)  =====================
-/

theorem bumpIter_add (m n : Nat) (w : Option (Option Nat)) :
    bumpIter (m + n) w = bumpIter n (bumpIter m w) := by
  induction m generalizing w with
  | zero => simp [bumpIter]
  | succ m ih =>
    have : m + 1 + n = m + n + 1 := by omega
    rw [this]
    show bumpIter (m + n) (bumpWeight w) = _
    rw [ih]
    rfl

theorem bumpIter_some_some (j : Nat) :
    ∀ w : Nat, bumpIter j (some (some w)) = some (some (w + j)) := by
  induction j with
  | zero => intro w; rfl
  | succ j ihj =>
    intro w
    show bumpIter j (bumpWeight (some (some w))) = _
    rw [show bumpWeight (some (some w)) = some (some (w + 1)) from rfl, ihj]
    have : w + 1 + j = w + (j + 1) := by omega
    rw [this]

theorem bumpIter_none_of_pos (n : Nat) (h : 0 < n) :
    bumpIter n none = some (some n) := by
  cases n with
  | zero => cases h
  | succ m =>
    show bumpIter m (bumpWeight none) = _
    rw [show bumpWeight none = some (some 1) from rfl, bumpIter_some_some]
    have : 1 + m = m + 1 := by omega
    rw [this]

theorem matchCount_cons (uj : String → String → String) (root t href : String)
    (rest : List String) :
    matchCount uj root t (href :: rest) =
      (if startsWithSlash href && href != "/" && (uj root href == t)
        then 1 else 0) + matchCount uj root t rest := by
  simp only [matchCount, List.filter_cons]
  split
  · rw [List.length_cons]; omega
  · omega

theorem crawlLinks_weight {visitF : String → String → Graph → List Ev → CrawlResult}
    (hA : VisitSpecA visitF) (uj : String → String → String) (root prev t : String) :
    ∀ (links : List String) (g : Graph) (tr : List Ev) (g' : Graph) (tr' : List Ev),
      crawlLinks visitF uj root prev links g tr = .ok (g', tr') →
      g.hasNode prev = true →
      g'.edgeWeight prev t = bumpIter (matchCount uj root t links) (g.edgeWeight prev t) := by
  intro links
  induction links with
  | nil =>
    intro g tr g' tr' h hprev
    rw [crawlLinks_nil] at h
    cases h
    rfl
  | cons href rest ih =>
    intro g tr g' tr' h hprev
    rw [crawlLinks_cons] at h
    rw [matchCount_cons]
    by_cases hfollow : (startsWithSlash href && href != "/") = true
    · rw [if_pos hfollow] at h
      cases hn : g.hasNode (uj root href) with
      | true =>
        rw [if_pos (by rw [hn])] at h
        dsimp only at h
        cases hawe : add_weighted_edge g prev (uj root href) with
        | none => rw [hawe] at h; cases h
        | some g2 =>
          rw [hawe] at h
          have hrec := ih g2 tr g' tr' h (Graph.awe_subNodes hawe prev hprev)
          cases hmatch : (uj root href == t) with
          | true =>
            have ht : uj root href = t := eq_of_beq hmatch
            rw [if_pos (by simp [hfollow])]
            rw [hrec, ← ht, Graph.edgeWeight_awe_self hawe]
            rw [bumpIter_add]
            rfl
          | false =>
            have ht : (prev, t) ≠ (prev, uj root href) := by
              intro hcontra
              have : t = uj root href := congrArg Prod.snd hcontra
              rw [this] at hmatch
              simp at hmatch
            rw [if_neg (by simp)]
            rw [hrec, Graph.edgeWeight_awe_other hawe ht]
            simp
      | false =>
        rw [if_neg (by rw [hn]; simp)] at h
        cases hv : visitF root (uj root href) g tr with
        | error e => rw [hv] at h; cases h
        | ok p =>
          obtain ⟨g1, tr1⟩ := p
          rw [hv] at h
          dsimp only at h
          rcases hA root (uj root href) g tr g1 tr1 hn hv with
            ⟨hsub1, _, _, _, hstab1, _, _⟩
          cases hawe : add_weighted_edge g1 prev (uj root href) with
          | none => rw [hawe] at h; cases h
          | some g2 =>
            rw [hawe] at h
            have hprev2 : g2.hasNode prev = true :=
              Graph.awe_subNodes hawe prev (hsub1 prev hprev)
            have hrec := ih g2 tr1 g' tr' h hprev2
            have hg1w : g1.edgeWeight prev t = g.edgeWeight prev t :=
              hstab1 prev hprev t
            cases hmatch : (uj root href == t) with
            | true =>
              have ht : uj root href = t := eq_of_beq hmatch
              rw [if_pos (by simp [hfollow])]
              rw [hrec, ← ht, Graph.edgeWeight_awe_self hawe]
              rw [← ht] at hg1w
              rw [hg1w]
              rw [bumpIter_add]
              rfl
            | false =>
              have ht : (prev, t) ≠ (prev, uj root href) := by
                intro hcontra
                have : t = uj root href := congrArg Prod.snd hcontra
                rw [this] at hmatch
                simp at hmatch
              rw [if_neg (by simp)]
              rw [hrec, Graph.edgeWeight_awe_other hawe ht, hg1w]
              simp
    · rw [if_neg hfollow] at h
      rw [if_neg (by
        intro hcontra
        rcases Bool.and_eq_true_iff.mp hcontra with ⟨h1, _⟩
        exact hfollow h1)]
      simpa using ih g tr g' tr' h hprev

/-
=====================  Exception freedom (bundle C)  =====================
-/

theorem awe_none_elim {g : Graph} {s t : String}
    (h : add_weighted_edge g s t = none) : g.edgeWeight s t = some none := by
  cases hw : g.edgeWeight s t with
  | none =>
    rw [Graph.awe_of_not_hasEdge (Graph.hasEdge_eq_false_of_edgeWeight_none hw)] at h
    cases h
  | some wv =>
    cases wv with
    | none => rfl
    | some w => rw [Graph.awe_of_weight hw] at h; cases h

theorem awe_some_of_allWeighted {g : Graph} (s t : String) (haw : g.AllWeighted) :
    ∃ g2, add_weighted_edge g s t = some g2 := by
  cases hawe : add_weighted_edge g s t with
  | some g2 => exact ⟨g2, rfl⟩
  | none =>
    have hw := awe_none_elim hawe
    have hmem := Graph.mem_edges_of_edgeWeight_some hw
    have := haw _ hmem
    cases this

theorem crawlLinks_total {visitF : String → String → Graph → List Ev → CrawlResult}
    (hA : VisitSpecA visitF)
    (hC : ∀ root w g tr, g.AllWeighted → g.hasNode w = false →
      visitF root w g tr = .error .recursionError ∨
      ∃ g' tr', visitF root w g tr = .ok (g', tr'))
    (uj : String → String → String) (root prev : String) :
    ∀ (links : List String) (g : Graph) (tr : List Ev), g.AllWeighted →
      crawlLinks visitF uj root prev links g tr = .error .recursionError ∨
      ∃ g' tr', crawlLinks visitF uj root prev links g tr = .ok (g', tr') := by
  intro links
  induction links with
  | nil =>
    intro g tr _
    exact Or.inr ⟨g, tr, crawlLinks_nil visitF uj root prev g tr⟩
  | cons href rest ih =>
    intro g tr haw
    rw [crawlLinks_cons]
    by_cases hfollow : (startsWithSlash href && href != "/") = true
    · rw [if_pos hfollow]
      cases hn : g.hasNode (uj root href) with
      | true =>
        rw [if_pos rfl]
        dsimp only
        rcases awe_some_of_allWeighted prev (uj root href) haw with ⟨g2, hawe⟩
        rw [hawe]
        exact ih g2 tr (Graph.awe_allWeighted hawe haw)
      | false =>
        rw [if_neg (by simp)]
        rcases hC root (uj root href) g tr haw hn with herr | ⟨g1, tr1, hok⟩
        · rw [herr]
          exact Or.inl rfl
        · rw [hok]
          dsimp only
          have haw1 : g1.AllWeighted :=
            (hA root (uj root href) g tr g1 tr1 hn hok).2.2.1 haw
          rcases awe_some_of_allWeighted prev (uj root href) haw1 with ⟨g2, hawe⟩
          rw [hawe]
          exact ih g2 tr1 (Graph.awe_allWeighted hawe haw1)
    · rw [if_neg hfollow]
      exact ih g tr haw

theorem visit_total (uj : String → String → String) (fetch : Fetcher)
    (hcons : fetch.Consistent) :
    ∀ (fuel : Nat) (root w : String) (g : Graph) (tr : List Ev), g.AllWeighted →
      website_to_graph uj fetch fuel root w w g tr = .error .recursionError ∨
      ∃ g' tr', website_to_graph uj fetch fuel root w w g tr = .ok (g', tr') := by
  intro fuel
  induction fuel with
  | zero => intro root w g tr _; exact Or.inl rfl
  | succ fuel ih =>
    intro root w g tr haw
    rw [website_to_graph_succ]
    cases hf : fetch tr.length w with
    | none =>
      dsimp only
      exact Or.inr ⟨g, .fetch w :: tr, rfl⟩
    | some page =>
      dsimp only
      have hm : get_main_text fetch (Ev.fetch w :: tr).length w = some page.mainText := by
        unfold get_main_text
        rw [hcons (Ev.fetch w :: tr).length tr.length w, hf]
        rfl
      rw [hm]
      exact crawlLinks_total (visit_specA uj fetch fuel)
        (fun root' w' g'' tr'' haw'' _ => ih root' w' g'' tr'' haw'')
        uj root w page.links (g.add_node w page.mainText)
        (.extract w :: .fetch w :: .fetch w :: tr)
        (Graph.allWeighted_add_node w page.mainText haw)

/-
=====================  Termination on finite sites (bundle D)  =====================
-/

theorem missingCount_mono (U : List String) {g g' : Graph}
    (hs : Graph.SubNodes g g') : missingCount U g' ≤ missingCount U g := by
  apply List.Sublist.length_le
  apply List.monotone_filter_right
  intro u hu
  cases hgu : g.hasNode u
  · simp
  · rw [hs u hgu] at hu
    simp at hu

theorem missingCount_strict (U : List String) {g g' : Graph} {u : String}
    (hs : Graph.SubNodes g g') (hu : u ∈ U)
    (h1 : g.hasNode u = false) (h2 : g'.hasNode u = true) :
    missingCount U g' < missingCount U g := by
  induction U with
  | nil => cases hu
  | cons a U' ih =>
    simp only [missingCount, List.filter_cons]
    rcases List.mem_cons.mp hu with heq | hu'
    · rw [← heq, h1, h2]
      have hmono := missingCount_mono U' hs
      simp only [missingCount] at hmono
      simp
      omega
    · have htail := ih hu'
      simp only [missingCount] at htail
      cases ha : g.hasNode a with
      | true =>
        have ha' := hs a ha
        simp [ha, ha']
        omega
      | false =>
        cases ha' : g'.hasNode a with
        | true =>
          simp [ha, ha']
          omega
        | false =>
          simp [ha, ha']
          omega

theorem crawlLinks_noRE {visitF : String → String → Graph → List Ev → CrawlResult}
    (hA : VisitSpecA visitF) (U : List String) (M : Nat)
    (hD : ∀ root w g tr, g.hasNode w = false → missingCount U g ≤ M →
        visitF root w g tr ≠ .error .recursionError)
    (uj : String → String → String) (root prev : String) :
    ∀ (links : List String) (g : Graph) (tr : List Ev), missingCount U g ≤ M →
      crawlLinks visitF uj root prev links g tr ≠ .error .recursionError := by
  intro links
  induction links with
  | nil =>
    intro g tr _ h
    rw [crawlLinks_nil] at h
    cases h
  | cons href rest ih =>
    intro g tr hm h
    rw [crawlLinks_cons] at h
    by_cases hfollow : (startsWithSlash href && href != "/") = true
    · rw [if_pos hfollow] at h
      cases hn : g.hasNode (uj root href) with
      | true =>
        rw [if_pos (by rw [hn])] at h
        dsimp only at h
        cases hawe : add_weighted_edge g prev (uj root href) with
        | none => rw [hawe] at h; cases h
        | some g2 =>
          rw [hawe] at h
          exact ih g2 tr
            (le_trans (missingCount_mono U (Graph.awe_subNodes hawe)) hm) h
      | false =>
        rw [if_neg (by rw [hn]; simp)] at h
        cases hv : visitF root (uj root href) g tr with
        | error e =>
          rw [hv] at h
          dsimp only at h
          have he : e = CrawlErr.recursionError := by
            injection h
          rw [he] at hv
          exact hD root (uj root href) g tr hn hm hv
        | ok p =>
          obtain ⟨g1, tr1⟩ := p
          rw [hv] at h
          dsimp only at h
          have hsub1 := (hA root (uj root href) g tr g1 tr1 hn hv).1
          cases hawe : add_weighted_edge g1 prev (uj root href) with
          | none => rw [hawe] at h; cases h
          | some g2 =>
            rw [hawe] at h
            have : missingCount U g2 ≤ M :=
              le_trans (missingCount_mono U (Graph.awe_subNodes hawe))
                (le_trans (missingCount_mono U hsub1) hm)
            exact ih g2 tr1 this h
    · rw [if_neg hfollow] at h
      exact ih g tr hm h

theorem visit_noRE (uj : String → String → String) (fetch : Fetcher)
    (U : List String) (hsup : fetch.SupportedBy U) :
    ∀ (fuel : Nat) (root w : String) (g : Graph) (tr : List Ev),
      g.hasNode w = false → missingCount U g + 1 ≤ fuel →
      website_to_graph uj fetch fuel root w w g tr ≠ .error .recursionError := by
  intro fuel
  induction fuel with
  | zero => intro root w g tr _ hm; omega
  | succ fuel ih =>
    intro root w g tr hw hm h
    rw [website_to_graph_succ] at h
    cases hf : fetch tr.length w with
    | none => rw [hf] at h; cases h
    | some page =>
      rw [hf] at h
      have hwU : w ∈ U := by
        by_contra hnotin
        rw [hsup tr.length w hnotin] at hf
        cases hf
      cases hm2 : get_main_text fetch (Ev.fetch w :: tr).length w with
      | none => rw [hm2] at h; cases h
      | some mt =>
        rw [hm2] at h
        have hstrict : missingCount U (g.add_node w mt) < missingCount U g :=
          missingCount_strict U (Graph.subNodes_add_node g w mt) hwU hw
            (Graph.hasNode_add_node_self g w mt)
        exact crawlLinks_noRE (visit_specA uj fetch fuel) U
          (missingCount U (g.add_node w mt))
          (fun root' w' g'' tr'' hw'' hm'' =>
            ih root' w' g'' tr'' hw'' (by omega))
          uj root w page.links (g.add_node w mt)
          (.extract w :: .fetch w :: .fetch w :: tr)
          (le_refl _) h

/-
=====================  Trace bookkeeping (bundle B)  =====================
-/

theorem fetchCount_append (δ1 δ2 : List Ev) (u : String) :
    fetchCount (δ1 ++ δ2) u = fetchCount δ1 u + fetchCount δ2 u := by
  simp [fetchCount, List.filter_append]

theorem extractCount_append (δ1 δ2 : List Ev) (u : String) :
    extractCount (δ1 ++ δ2) u = extractCount δ1 u + extractCount δ2 u := by
  simp [extractCount, List.filter_append]

theorem TraceBound_nil (g g' : Graph) : TraceBound g g' [] := by
  intro w
  refine ⟨by simp [fetchCount], by simp [extractCount], ?_, ?_⟩ <;>
    · intro h
      simp [fetchCount, extractCount] at h

theorem TraceBound_mono_left {g g0 g' : Graph} {δ : List Ev}
    (hs : Graph.SubNodes g g0) (h : TraceBound g0 g' δ) : TraceBound g g' δ := by
  intro w
  rcases h w with ⟨a, b, c, d⟩
  exact ⟨a, b, fun hpos => ⟨Graph.not_hasNode_of_subNodes hs (c hpos).1, (c hpos).2⟩, d⟩

theorem TraceBound_single_fetch {g g2 : Graph} {w : String}
    (h1 : g.hasNode w = false) (h2 : g2.hasNode w = true) :
    TraceBound g g2 [Ev.fetch w] := by
  intro w0
  by_cases hw : w = w0
  · subst hw
    have hfc : fetchCount [Ev.fetch w] w = 1 := by simp [fetchCount]
    have hec : extractCount [Ev.fetch w] w = 0 := by simp [extractCount]
    refine ⟨by omega, by omega, fun _ => ⟨h1, h2⟩, fun hpos => by omega⟩
  · have hfc : fetchCount [Ev.fetch w] w0 = 0 := by simp [fetchCount, hw]
    have hec : extractCount [Ev.fetch w] w0 = 0 := by simp [extractCount]
    exact ⟨by omega, by omega, fun hpos => by omega, fun hpos => by omega⟩

theorem TraceBound_base {g g1 : Graph} {w : String}
    (h1 : g.hasNode w = false) (h2 : g1.hasNode w = true) :
    TraceBound g g1 [Ev.extract w, Ev.fetch w, Ev.fetch w] := by
  intro w0
  by_cases hw : w = w0
  · subst hw
    have hfc : fetchCount [Ev.extract w, Ev.fetch w, Ev.fetch w] w = 2 := by
      simp [fetchCount]
    have hec : extractCount [Ev.extract w, Ev.fetch w, Ev.fetch w] w = 1 := by
      simp [extractCount]
    exact ⟨by omega, by omega, fun _ => ⟨h1, h2⟩, fun _ => by omega⟩
  · have hfc : fetchCount [Ev.extract w, Ev.fetch w, Ev.fetch w] w0 = 0 := by
      simp [fetchCount, hw]
    have hec : extractCount [Ev.extract w, Ev.fetch w, Ev.fetch w] w0 = 0 := by
      simp [extractCount, hw]
    exact ⟨by omega, by omega, fun hpos => by omega, fun hpos => by omega⟩

theorem TraceBound_comp {g g1 g2 g' : Graph} {δv δr : List Ev}
    (hbv : TraceBound g g1 δv) (hbr : TraceBound g2 g' δr)
    (hs01 : Graph.SubNodes g g1) (hs12 : Graph.SubNodes g1 g2)
    (hs2' : Graph.SubNodes g2 g') :
    TraceBound g g' (δr ++ δv) := by
  intro w
  rcases hbv w with ⟨hfv, hev, hnv, hefv⟩
  rcases hbr w with ⟨hfr, her, hnr, hefr⟩
  have hfe : fetchCount (δr ++ δv) w = fetchCount δr w + fetchCount δv w :=
    fetchCount_append δr δv w
  have hee : extractCount (δr ++ δv) w = extractCount δr w + extractCount δv w :=
    extractCount_append δr δv w
  rw [hfe, hee]
  have hdisj : fetchCount δv w = 0 ∨ fetchCount δr w = 0 := by
    by_cases hv0 : 0 < fetchCount δv w
    · right
      rcases hnv hv0 with ⟨_, h1n⟩
      by_contra hr0
      have hrpos : 0 < fetchCount δr w := Nat.pos_of_ne_zero hr0
      rcases hnr hrpos with ⟨h2n, _⟩
      rw [hs12 w h1n] at h2n
      cases h2n
    · left
      omega
  refine ⟨by rcases hdisj with h0 | h0 <;> omega, ?_, ?_, ?_⟩
  · by_cases hev0 : 0 < extractCount δv w
    · have hfv0 := hefv hev0
      rcases hdisj with h0 | h0
      · omega
      · have her0 : extractCount δr w = 0 := by
          by_contra hne
          have := hefr (Nat.pos_of_ne_zero hne)
          omega
        omega
    · omega
  · intro hpos
    by_cases hv0 : 0 < fetchCount δv w
    · rcases hnv hv0 with ⟨hgw, h1w⟩
      exact ⟨hgw, hs2' w (hs12 w h1w)⟩
    · have hr0 : 0 < fetchCount δr w := by omega
      rcases hnr hr0 with ⟨h2w, h'w⟩
      exact ⟨Graph.not_hasNode_of_subNodes (Graph.subNodes_trans hs01 hs12) h2w, h'w⟩
  · intro hpos
    by_cases hev0 : 0 < extractCount δv w
    · have := hefv hev0
      omega
    · have her0 : 0 < extractCount δr w := by omega
      have := hefr her0
      omega

theorem crawlLinks_traceB {visitF : String → String → Graph → List Ev → CrawlResult}
    (hA : VisitSpecA visitF) (hB : VisitSpecB visitF)
    (uj : String → String → String) (root prev : String) :
    ∀ (links : List String) (g : Graph) (tr : List Ev) (g' : Graph) (tr' : List Ev),
      g.NoDangling →
      crawlLinks visitF uj root prev links g tr = .ok (g', tr') →
      ∃ δ, tr' = δ ++ tr ∧ TraceBound g g' δ := by
  intro links
  induction links with
  | nil =>
    intro g tr g' tr' _ h
    rw [crawlLinks_nil] at h
    cases h
    exact ⟨[], rfl, TraceBound_nil g g⟩
  | cons href rest ih =>
    intro g tr g' tr' hnd h
    rw [crawlLinks_cons] at h
    by_cases hfollow : (startsWithSlash href && href != "/") = true
    · rw [if_pos hfollow] at h
      cases hn : g.hasNode (uj root href) with
      | true =>
        rw [if_pos (by rw [hn])] at h
        dsimp only at h
        cases hawe : add_weighted_edge g prev (uj root href) with
        | none => rw [hawe] at h; cases h
        | some g2 =>
          rw [hawe] at h
          rcases ih g2 tr g' tr' (Graph.awe_noDangling hawe hnd) h with ⟨δ, hδ, htb⟩
          exact ⟨δ, hδ, TraceBound_mono_left (Graph.awe_subNodes hawe) htb⟩
      | false =>
        rw [if_neg (by rw [hn]; simp)] at h
        cases hv : visitF root (uj root href) g tr with
        | error e => rw [hv] at h; cases h
        | ok p =>
          obtain ⟨g1, tr1⟩ := p
          rw [hv] at h
          dsimp only at h
          have hnd1 : g1.NoDangling :=
            (hA root (uj root href) g tr g1 tr1 hn hv).2.1 hnd
          cases hawe : add_weighted_edge g1 prev (uj root href) with
          | none => rw [hawe] at h; cases h
          | some g2 =>
            rw [hawe] at h
            have hnd2 : g2.NoDangling := Graph.awe_noDangling hawe hnd1
            rcases ih g2 tr1 g' tr' hnd2 h with ⟨δr, hδr, htbr⟩
            rcases hB root (uj root href) g tr g1 tr1 hnd hn hv with ⟨δv, hδv, hshape⟩
            have hs2' : Graph.SubNodes g2 g' :=
              (crawlLinks_specA hA uj root prev rest g2 tr1 g' tr' h).1
            refine ⟨δr ++ δv, by rw [hδr, hδv, List.append_assoc], ?_⟩
            rcases hshape with htbv | ⟨hδfail, hg1g⟩
            · exact TraceBound_comp htbv htbr
                (hA root (uj root href) g tr g1 tr1 hn hv).1
                (Graph.awe_subNodes hawe) hs2'
            · rw [hδfail]
              rw [hg1g] at hawe
              have hg2w : g2.hasNode (uj root href) = true :=
                Graph.awe_hasNode_target hawe hnd
              exact TraceBound_comp (TraceBound_single_fetch hn hg2w) htbr
                (Graph.awe_subNodes hawe) (Graph.subNodes_refl g2) hs2'
    · rw [if_neg hfollow] at h
      exact ih g tr g' tr' hnd h

theorem visit_specB (uj : String → String → String) (fetch : Fetcher) :
    ∀ fuel : Nat,
      VisitSpecB (fun r w g tr => website_to_graph uj fetch fuel r w w g tr) := by
  intro fuel
  induction fuel with
  | zero =>
    intro root w g tr g' tr' hnd hw h
    dsimp only at h
    rw [website_to_graph_zero] at h
    cases h
  | succ fuel ih =>
    intro root w g tr g' tr' hnd hw h
    dsimp only at h
    rw [website_to_graph_succ] at h
    cases hf : fetch tr.length w with
    | none =>
      rw [hf] at h
      cases h
      exact ⟨[Ev.fetch w], rfl, Or.inr ⟨rfl, rfl⟩⟩
    | some page =>
      rw [hf] at h
      cases hm : get_main_text fetch (Ev.fetch w :: tr).length w with
      | none => rw [hm] at h; cases h
      | some mt =>
        rw [hm] at h
        have hnd1 : (g.add_node w mt).NoDangling :=
          Graph.noDangling_add_node w mt hnd
        rcases crawlLinks_traceB (visit_specA uj fetch fuel) ih uj root w
            page.links (g.add_node w mt)
            (.extract w :: .fetch w :: .fetch w :: tr) g' tr' hnd1 h with
          ⟨δloop, hδ, htb⟩
        have hs1' : Graph.SubNodes (g.add_node w mt) g' :=
          (crawlLinks_specA (visit_specA uj fetch fuel) uj root w page.links
            (g.add_node w mt) _ g' tr' h).1
        refine ⟨δloop ++ [Ev.extract w, Ev.fetch w, Ev.fetch w], ?_, Or.inl ?_⟩
        · rw [hδ, List.append_assoc]
          rfl
        · exact TraceBound_comp
            (TraceBound_base hw (Graph.hasNode_add_node_self g w mt))
            htb (Graph.subNodes_add_node g w mt)
            (Graph.subNodes_refl (g.add_node w mt)) hs1'

/-
=====================  Serializer round-trip lemmas  =====================
-/

theorem except_bind_ok {α β : Type} {ε : Type} (x : α) (f : α → Except ε β) :
    (Except.ok x >>= f) = f x := rfl

theorem except_bind_error {α β : Type} {ε : Type} (e : ε) (f : α → Except ε β) :
    ((Except.error e : Except ε α) >>= f) = Except.error e := rfl

theorem getKey_nld_nodes (g : Graph) :
    getKey (node_link_data g) "nodes" = .ok (.arr (g.nodes.map nodeToJson)) := rfl

theorem getKey_nld_links (g : Graph) :
    getKey (node_link_data g) "links" = .ok (.arr (g.edges.map edgeToJson)) := rfl

theorem pyIter_arr (elems : List Json) : pyIter (.arr elems) = .ok elems := rfl

theorem addNodeFromJson_node (g : Graph) (u txt : String) :
    addNodeFromJson g (nodeToJson (u, some txt)) = .ok (g.add_node u txt) := rfl

theorem addEdgeFromJson_edge (g : Graph) (s t : String) (w : Option Nat) :
    addEdgeFromJson g (edgeToJson ((s, t), w)) = .ok (g.add_edge s t none) := by
  cases w <;> rfl

theorem ensureNode_of_hasNode {g : Graph} {u : String} (h : g.hasNode u = true) :
    g.ensureNode u = g := by
  unfold Graph.ensureNode
  rw [if_pos h]

theorem add_edge_no_create {g : Graph} {s t : String} (hs : g.hasNode s = true)
    (ht : g.hasNode t = true) (he : g.hasEdge s t = false) (w : Option Nat) :
    g.add_edge s t w = ⟨g.nodes, g.edges ++ [((s, t), w)]⟩ := by
  rw [Graph.add_edge_fresh w he, ensureNode_of_hasNode hs, ensureNode_of_hasNode ht]

theorem nodes_fold (ns : List (String × Option String)) :
    ∀ g0 : Graph,
      (∀ p ∈ ns, g0.hasNode p.1 = false) →
      (ns.map Prod.fst).Nodup →
      (∀ p ∈ ns, p.2.isSome = true) →
      List.foldlM addNodeFromJson g0 (ns.map nodeToJson) =
        .ok ⟨g0.nodes ++ ns, g0.edges⟩ := by
  induction ns with
  | nil =>
    intro g0 _ _ _
    show Except.ok g0 = _
    rw [List.append_nil]
  | cons p rest ih =>
    intro g0 hfresh hnodup htext
    obtain ⟨u, txt?⟩ := p
    cases txt? with
    | none =>
      have := htext (u, none) (by simp)
      simp at this
    | some txt =>
      rw [List.map_cons, List.foldlM_cons, addNodeFromJson_node, except_bind_ok]
      have hfresh0 : g0.hasNode u = false := hfresh (u, some txt) (by simp)
      rw [Graph.add_node_fresh txt hfresh0]
      have hnotin : u ∉ rest.map Prod.fst := by
        rw [List.map_cons] at hnodup
        exact (List.nodup_cons.mp hnodup).1
      have hfresh' : ∀ q ∈ rest,
          Graph.hasNode ⟨g0.nodes ++ [(u, some txt)], g0.edges⟩ q.1 = false := by
        intro q hq
        have h1 : g0.hasNode q.1 = false := hfresh q (List.mem_cons_of_mem _ hq)
        have h2 : q.1 ≠ u := by
          intro hcontra
          exact hnotin (hcontra ▸ List.mem_map_of_mem Prod.fst hq)
        rw [Graph.hasNode_mk, List.any_append]
        have h1' : g0.nodes.any (fun r => r.1 == q.1) = false := h1
        rw [h1']
        simp [Ne.symm h2]
      have hnodup' : (rest.map Prod.fst).Nodup := by
        rw [List.map_cons] at hnodup
        exact (List.nodup_cons.mp hnodup).2
      have htext' : ∀ q ∈ rest, q.2.isSome = true :=
        fun q hq => htext q (List.mem_cons_of_mem _ hq)
      rw [ih ⟨g0.nodes ++ [(u, some txt)], g0.edges⟩ hfresh' hnodup' htext']
      simp

theorem edges_fold (es : List ((String × String) × Option Nat)) :
    ∀ acc : Graph,
      (∀ e ∈ es, acc.hasNode e.1.1 = true ∧ acc.hasNode e.1.2 = true) →
      (∀ e ∈ es, acc.hasEdge e.1.1 e.1.2 = false) →
      (es.map Prod.fst).Nodup →
      List.foldlM addEdgeFromJson acc (es.map edgeToJson) =
        .ok ⟨acc.nodes, acc.edges ++ es.map (fun e => (e.1, (none : Option Nat)))⟩ := by
  induction es with
  | nil =>
    intro acc _ _ _
    show Except.ok acc = _
    rw [List.map_nil, List.append_nil]
  | cons e rest ih =>
    intro acc hnodes hedges hnodup
    obtain ⟨⟨s, t⟩, w⟩ := e
    rw [List.map_cons, List.foldlM_cons, addEdgeFromJson_edge, except_bind_ok]
    have hs := (hnodes ((s, t), w) (by simp)).1
    have ht := (hnodes ((s, t), w) (by simp)).2
    have he := hedges ((s, t), w) (by simp)
    rw [add_edge_no_create hs ht he none]
    have hnotin : (s, t) ∉ rest.map Prod.fst := by
      rw [List.map_cons] at hnodup
      exact (List.nodup_cons.mp hnodup).1
    have hnodes' : ∀ e' ∈ rest,
        Graph.hasNode ⟨acc.nodes, acc.edges ++ [((s, t), none)]⟩ e'.1.1 = true ∧
        Graph.hasNode ⟨acc.nodes, acc.edges ++ [((s, t), none)]⟩ e'.1.2 = true := by
      intro e' he'
      exact hnodes e' (List.mem_cons_of_mem _ he')
    have hedges' : ∀ e' ∈ rest,
        Graph.hasEdge ⟨acc.nodes, acc.edges ++ [((s, t), none)]⟩ e'.1.1 e'.1.2 = false := by
      intro e' he'
      have h1 : acc.hasEdge e'.1.1 e'.1.2 = false :=
        hedges e' (List.mem_cons_of_mem _ he')
      have h2 : e'.1 ≠ (s, t) := by
        intro hcontra
        exact hnotin (hcontra ▸ List.mem_map_of_mem Prod.fst he')
      show (acc.edges ++ [((s, t), none)]).any
        (fun e => e.1 == (e'.1.1, e'.1.2)) = false
      rw [List.any_append]
      have h1' : acc.edges.any (fun e => e.1 == (e'.1.1, e'.1.2)) = false := h1
      rw [h1']
      have : ((s, t) == (e'.1.1, e'.1.2)) = false := by
        cases hb : ((s, t) == (e'.1.1, e'.1.2))
        · rfl
        · have := eq_of_beq hb
          exact absurd this.symm h2
      simp [this]
    have hnodup' : (rest.map Prod.fst).Nodup := by
      rw [List.map_cons] at hnodup
      exact (List.nodup_cons.mp hnodup).2
    rw [ih ⟨acc.nodes, acc.edges ++ [((s, t), none)]⟩ hnodes' hedges' hnodup']
    simp

/-- The computed shape of `json_to_graph (graph_to_json g)` for a
well-formed graph all of whose nodes carry text: the node list is
reproduced exactly and every edge is recreated with no `weight`
attribute. -/
theorem json_to_graph_roundtrip (g : Graph) (h1 : g.NodesNodup)
    (h2 : g.NoDangling) (h3 : g.AllTexted) (h4 : g.EdgesNodup) :
    json_to_graph (graph_to_json g) =
      .ok ⟨g.nodes, g.edges.map (fun e => (e.1, (none : Option Nat)))⟩ := by
  have hnodes := nodes_fold g.nodes Graph.empty (fun p _ => rfl) h1 h3
  have hacc : (⟨Graph.empty.nodes ++ g.nodes, Graph.empty.edges⟩ : Graph)
      = ⟨g.nodes, []⟩ := by
    show (⟨[] ++ g.nodes, []⟩ : Graph) = ⟨g.nodes, []⟩
    rw [List.nil_append]
  rw [hacc] at hnodes
  have hnd' : ∀ e ∈ g.edges,
      Graph.hasNode ⟨g.nodes, ([] : List ((String × String) × Option Nat))⟩ e.1.1 = true ∧
      Graph.hasNode ⟨g.nodes, ([] : List ((String × String) × Option Nat))⟩ e.1.2 = true := by
    intro e he
    exact h2 e he
  have hedges := edges_fold g.edges ⟨g.nodes, []⟩ hnd' (fun e _ => rfl) h4
  show (do
    let data ← match graph_to_json g with
      | .missing => Except.error LoadErr.fileNotFound
      | .notJson => Except.error LoadErr.jsonDecodeError
      | .json d => Except.ok d
    let nodesJ ← getKey data "nodes"
    let nodeItems ← pyIter nodesJ
    let gacc ← nodeItems.foldlM addNodeFromJson Graph.empty
    let linksJ ← getKey data "links"
    let linkItems ← pyIter linksJ
    linkItems.foldlM addEdgeFromJson gacc) = _
  show (Except.ok (node_link_data g) >>= fun data => _) = _
  rw [except_bind_ok]
  rw [getKey_nld_nodes, except_bind_ok, pyIter_arr, except_bind_ok]
  rw [hnodes, except_bind_ok]
  rw [getKey_nld_links, except_bind_ok, pyIter_arr, except_bind_ok]
  rw [hedges]
  rfl

/-
=====================  Remaining helper lemmas  =====================
-/

theorem edgeWeight_none_of_not_hasEdge {g : Graph} {s t : String}
    (h : g.hasEdge s t = false) : g.edgeWeight s t = none := by
  unfold Graph.edgeWeight
  rw [Graph.find?_edges_eq_none h]
  rfl

theorem missingCount_empty (U : List String) :
    missingCount U Graph.empty = U.length := by
  unfold missingCount
  have h : ∀ a ∈ U, (!Graph.empty.hasNode a) = true := fun a _ => rfl
  rw [List.filter_eq_self.mpr h]

theorem fetchC7_supported : Fetcher.SupportedBy fetchC7 ["/", "/a", "/b"] := by
  intro k u hu
  simp only [List.mem_cons, List.not_mem_nil, or_false, not_or] at hu
  obtain ⟨h1, h2, h3⟩ := hu
  simp [fetchC7, h1, h2, h3]

/-
=====================  The claims  =====================
-/

/-- C4 counterexample: the claim says that adding an edge that already
exists increments its weight by 1; on an existing edge that carries no
`weight` attribute (exactly what `json_to_graph` produces, so such graphs
do occur), `graph[source][target]["weight"] += 1` instead raises
`KeyError` — `add_weighted_edge` returns no graph at all. -/
theorem c4_counterexample :
    gUnweighted.hasEdge "a" "b" = true ∧
    add_weighted_edge gUnweighted "a" "b" = none :=
  ⟨rfl, rfl⟩

/-- C4 (amended): adding an edge that already exists *with a weight `w`*
increments the weight to `w + 1`; adding a new edge creates it with
weight 1; and a visit of a not-yet-seen page `p` that fetches
successfully (under a fetcher that answers consistently) turns the `N`
same-site hrefs of `p` that resolve to `t` into the single edge
`(p, t)` — edge keys stay unique — with weight exactly `N` (when
`N = 0`, no weight is created for `(p, t)` by the visit). -/
theorem c4_weight_semantics :
    (∀ (g : Graph) (s t : String) (w : Nat), g.edgeWeight s t = some (some w) →
      ∃ g', add_weighted_edge g s t = some g' ∧
        g'.edgeWeight s t = some (some (w + 1))) ∧
    (∀ (g : Graph) (s t : String), g.hasEdge s t = false →
      ∃ g', add_weighted_edge g s t = some g' ∧
        g'.edgeWeight s t = some (some 1)) ∧
    (∀ (uj : String → String → String) (fetch : Fetcher) (fuel : Nat)
        (root p t : String) (page : Page) (g0 : Graph) (tr : List Ev)
        (g' : Graph) (tr' : List Ev),
        fetch.Consistent →
        fetch 0 p = some page →
        g0.hasNode p = false →
        g0.hasEdge p t = false →
        g0.EdgesNodup →
        website_to_graph uj fetch (fuel + 1) root p p g0 tr = .ok (g', tr') →
        g'.EdgesNodup ∧
        g'.edgeWeight p t = bumpIter (matchCount uj root t page.links) none ∧
        (0 < matchCount uj root t page.links →
          g'.edgeWeight p t = some (some (matchCount uj root t page.links)))) := by
  refine ⟨?_, ?_, ?_⟩
  · intro g s t w hw
    refine ⟨_, Graph.awe_of_weight hw, ?_⟩
    have hself := Graph.edgeWeight_awe_self (Graph.awe_of_weight hw)
    rw [hw] at hself
    exact hself
  · intro g s t h
    refine ⟨_, Graph.awe_of_not_hasEdge h, ?_⟩
    have hself := Graph.edgeWeight_awe_self (Graph.awe_of_not_hasEdge h)
    rw [edgeWeight_none_of_not_hasEdge h] at hself
    exact hself
  · intro uj fetch fuel root p t page g0 tr g' tr' hcons hfp hnp hne hen h
    rw [website_to_graph_succ] at h
    have hf : fetch tr.length p = some page := by rw [hcons tr.length 0 p]; exact hfp
    rw [hf] at h
    have hm : get_main_text fetch (Ev.fetch p :: tr).length p = some page.mainText := by
      unfold get_main_text
      rw [hcons (Ev.fetch p :: tr).length 0 p, hfp]
      rfl
    rw [hm] at h
    have hw := crawlLinks_weight (visit_specA uj fetch fuel) uj root p t
      page.links (g0.add_node p page.mainText) _ g' tr' h
      (Graph.hasNode_add_node_self g0 p page.mainText)
    rw [Graph.edgeWeight_add_node, edgeWeight_none_of_not_hasEdge hne] at hw
    refine ⟨?_, hw, ?_⟩
    · exact (crawlLinks_specA (visit_specA uj fetch fuel) uj root p page.links
        (g0.add_node p page.mainText) _ g' tr' h).2.2.2.1
        (Graph.edgesNodup_add_node p page.mainText hen)
    · intro hpos
      rw [hw]
      exact bumpIter_none_of_pos _ hpos

/-- C4 witness: the three parts at concrete inputs — incrementing the
weight-2 edge of `gWeighted`, creating a fresh edge on the empty graph,
and the spec section 8 scenario page with two hrefs to `/a`. -/
theorem c4_witness :
    (∃ g', add_weighted_edge gWeighted "a" "b" = some g' ∧
      g'.edgeWeight "a" "b" = some (some 3)) ∧
    (∃ g', add_weighted_edge Graph.empty "x" "y" = some g' ∧
      g'.edgeWeight "x" "y" = some (some 1)) ∧
    (Graph.EdgesNodup ⟨[("/", some "r"), ("/a", some "a")],
        [(("/", "/a"), some 2)]⟩ ∧
     Graph.edgeWeight ⟨[("/", some "r"), ("/a", some "a")],
        [(("/", "/a"), some 2)]⟩ "/" "/a" =
       bumpIter (matchCount pathJoin "/" "/a"
        ["/a", "/a", "http://other.com", "/"]) none ∧
     (0 < matchCount pathJoin "/" "/a" ["/a", "/a", "http://other.com", "/"] →
       Graph.edgeWeight ⟨[("/", some "r"), ("/a", some "a")],
          [(("/", "/a"), some 2)]⟩ "/" "/a" =
         some (some (matchCount pathJoin "/" "/a"
          ["/a", "/a", "http://other.com", "/"])))) :=
  ⟨c4_weight_semantics.1 gWeighted "a" "b" 2 rfl,
   c4_weight_semantics.2.1 Graph.empty "x" "y" rfl,
   c4_weight_semantics.2.2 pathJoin fetchC4 9 "/" "/" "/a"
     ⟨["/a", "/a", "http://other.com", "/"], "r"⟩ Graph.empty []
     ⟨[("/", some "r"), ("/a", some "a")], [(("/", "/a"), some 2)]⟩
     [.extract "/a", .fetch "/a", .fetch "/a", .extract "/", .fetch "/", .fetch "/"]
     (fun _ _ _ => rfl) rfl rfl rfl List.nodup_nil rfl⟩

/-- C5 counterexample: the claim quantifies over every graph, but a graph
containing a node without a `text_content` attribute (which real crawls
produce for failed-fetch URLs, see C1) makes the reload raise `KeyError`
at `node["text_content"]`: `load(save(G))` produces no graph at all. -/
theorem c5_counterexample :
    gNoText.nodes = [("a", none)] ∧
    json_to_graph (graph_to_json gNoText) = .error .keyError :=
  ⟨rfl, rfl⟩

/-- C5 (amended): for every well-formed graph — unique node keys, unique
edge keys, edges between existing nodes, as every networkx graph has —
whose every node carries a `text_content` attribute, `load(save(G))`
succeeds and reproduces the node list exactly, each node's
`text_content` included. -/
theorem c5_roundtrip_nodes (g : Graph) (h1 : g.NodesNodup) (h2 : g.NoDangling)
    (h3 : g.AllTexted) (h4 : g.EdgesNodup) :
    ∃ g', json_to_graph (graph_to_json g) = .ok g' ∧ g'.nodes = g.nodes :=
  ⟨_, json_to_graph_roundtrip g h1 h2 h3 h4, rfl⟩

/-- C5 witness: the round trip of the concrete graph `gWeighted`. -/
theorem c5_witness :
    ∃ g', json_to_graph (graph_to_json gWeighted) = .ok g' ∧
      g'.nodes = gWeighted.nodes :=
  c5_roundtrip_nodes gWeighted (by unfold Graph.NodesNodup; decide)
    (by unfold Graph.NoDangling; decide) (by unfold Graph.AllTexted; decide)
    (by unfold Graph.EdgesNodup; decide)

/-- C6 counterexample: reloading the saved `gWeighted` (edge weight 2)
yields the edge with *no* `weight` attribute at all — not, as the claim
says, with weight 1. -/
theorem c6_counterexample :
    gWeighted.edgeWeight "a" "b" = some (some 2) ∧
    json_to_graph (graph_to_json gWeighted) = .ok gUnweighted ∧
    gUnweighted.edgeWeight "a" "b" = some none ∧
    (some (none : Option Nat) : Option (Option Nat)) ≠ some (some 1) :=
  ⟨rfl, rfl, rfl, by simp⟩

/-- C6 (amended): for every well-formed, fully-texted graph,
`load(save(G))` reproduces the edge set (the source–target pairs, in
order) but not the weights: every reloaded edge carries no `weight`
attribute, because `json_to_graph` recreates edges with the plain
`G.add_edge(source, target)` rather than the weight-aware add. -/
theorem c6_roundtrip_edges (g : Graph) (h1 : g.NodesNodup) (h2 : g.NoDangling)
    (h3 : g.AllTexted) (h4 : g.EdgesNodup) :
    ∃ g', json_to_graph (graph_to_json g) = .ok g' ∧
      g'.edges = g.edges.map (fun e => (e.1, (none : Option Nat))) ∧
      g'.edges.map Prod.fst = g.edges.map Prod.fst :=
  ⟨_, json_to_graph_roundtrip g h1 h2 h3 h4, rfl, by
    rw [List.map_map]
    exact List.map_congr_left (fun a _ => rfl)⟩

/-- C6 witness: the round trip of a two-edge graph with weights 2 and 5. -/
theorem c6_witness :
    ∃ g', json_to_graph (graph_to_json
        ⟨[("a", some "x"), ("b", some "y")],
         [(("a", "b"), some 2), (("b", "a"), some 5)]⟩) = .ok g' ∧
      g'.edges = [(("a", "b"), (none : Option Nat)), (("b", "a"), none)] ∧
      g'.edges.map Prod.fst = [("a", "b"), ("b", "a")] :=
  c6_roundtrip_edges ⟨[("a", some "x"), ("b", some "y")],
      [(("a", "b"), some 2), (("b", "a"), some 5)]⟩
    (by unfold Graph.NodesNodup; decide) (by unfold Graph.NoDangling; decide)
    (by unfold Graph.AllTexted; decide) (by unfold Graph.EdgesNodup; decide)

/-- C8: a link whose raw href does not start with `/`, or is exactly `/`,
is skipped entirely by the link loop — no recursion, no edge, no graph or
trace change for that link, whatever the state of the graph (in
particular even if the resolved URL is already a node). -/
theorem c8_link_filter (visitF : String → String → Graph → List Ev → CrawlResult)
    (uj : String → String → String) (root prev href : String) (rest : List String)
    (g : Graph) (tr : List Ev)
    (h : startsWithSlash href = false ∨ href = "/") :
    crawlLinks visitF uj root prev (href :: rest) g tr =
      crawlLinks visitF uj root prev rest g tr := by
  rw [crawlLinks_cons]
  rcases h with h1 | h1
  · rw [if_neg (by simp [h1])]
  · rw [if_neg (by simp [h1])]

/-- C8 witness: an external href and the bare `/` href are both skipped,
here on a graph that already contains the resolved URLs as nodes. -/
theorem c8_witness :
    crawlLinks (fun _ _ g tr => .ok (g, tr)) pathJoin "/" "/"
        ("http://other.com" :: ["/x"]) gWeighted [] =
      crawlLinks (fun _ _ g tr => .ok (g, tr)) pathJoin "/" "/"
        ["/x"] gWeighted [] :=
  c8_link_filter (fun _ _ g tr => .ok (g, tr)) pathJoin "/" "/"
    "http://other.com" ["/x"] gWeighted [] (Or.inl (by decide))

/-- C9: loading fails with `FileNotFoundError` when the path does not
exist, with `JSONDecodeError` when the file is not valid JSON, and with a
key error when a required field is missing (shown both for the missing
`"nodes"` collection in general and for a node object without
`text_content`); a graph is only ever returned from an existing,
JSON-valid file — a failure is never silently turned into an empty
graph. -/
theorem c9_load_errors :
    json_to_graph .missing = .error .fileNotFound ∧
    json_to_graph .notJson = .error .jsonDecodeError ∧
    (∀ (j : Json) (e : LoadErr), getKey j "nodes" = .error e →
      json_to_graph (.json j) = .error e) ∧
    (∀ (f : File) (g' : Graph), json_to_graph f = .ok g' → ∃ d, f = .json d) ∧
    json_to_graph (.json docMissingField) = .error .keyError := by
  refine ⟨rfl, rfl, ?_, ?_, rfl⟩
  · intro j e h
    show (Except.ok j >>= fun data => _) = _
    rw [except_bind_ok]
    show (getKey j "nodes" >>= fun nodesJ => _) = _
    rw [h, except_bind_error]
  · intro f g' h
    cases f with
    | missing => cases h
    | notJson => cases h
    | json d => exact ⟨d, rfl⟩

/-- C9 witness: the general missing-field clause at a document that is a
JSON array (no `"nodes"` field), and the only-from-valid-files clause at
the document of the empty graph. -/
theorem c9_witness :
    json_to_graph (.json (.arr [])) = .error .typeError ∧
    ∃ d, File.json (node_link_data Graph.empty) = .json d :=
  ⟨c9_load_errors.2.2.1 (.arr []) .typeError rfl,
   c9_load_errors.2.2.2.1 (.json (node_link_data Graph.empty)) Graph.empty rfl⟩

/-- C10: on a pair without an existing edge, `add_weighted_edge` never
raises: it creates the edge with weight 1, and `G.add_edge` silently
creates any endpoint that is not yet a node, as a node with no
`text_content` attribute. -/
theorem c10_add_edge_fresh (g : Graph) (s t : String) (h : g.hasEdge s t = false) :
    ∃ g', add_weighted_edge g s t = some g' ∧
      g'.edgeWeight s t = some (some 1) ∧
      g'.hasNode s = true ∧ g'.hasNode t = true ∧
      (g.hasNode s = false → g'.nodeText s = some none) ∧
      (g.hasNode t = false → g'.nodeText t = some none) := by
  refine ⟨g.add_edge s t (some 1), Graph.awe_of_not_hasEdge h, ?_, ?_, ?_, ?_, ?_⟩
  · have hself := Graph.edgeWeight_awe_self (Graph.awe_of_not_hasEdge h)
    rw [edgeWeight_none_of_not_hasEdge h] at hself
    exact hself
  · rw [Graph.add_edge_fresh _ h]
    show ((g.ensureNode s).ensureNode t).hasNode s = true
    exact Graph.subNodes_ensureNode _ t s (Graph.hasNode_ensureNode_self g s)
  · rw [Graph.add_edge_fresh _ h]
    show ((g.ensureNode s).ensureNode t).hasNode t = true
    exact Graph.hasNode_ensureNode_self _ t
  · intro hs
    rw [Graph.add_edge_fresh _ h]
    show ((g.ensureNode s).ensureNode t).nodeText s = some none
    exact Graph.nodeText_ensureNode_of_some (Graph.nodeText_ensureNode_fresh hs)
  · intro ht
    rw [Graph.add_edge_fresh _ h]
    show ((g.ensureNode s).ensureNode t).nodeText t = some none
    by_cases hst : s = t
    · subst hst
      exact Graph.nodeText_ensureNode_of_some (Graph.nodeText_ensureNode_fresh ht)
    · exact Graph.nodeText_ensureNode_fresh (Graph.hasNode_ensureNode_of_ne hst ht)

/-- C10 witness: a fresh edge between two URLs absent from the empty
graph. -/
theorem c10_witness :
    ∃ g', add_weighted_edge Graph.empty "u" "v" = some g' ∧
      g'.edgeWeight "u" "v" = some (some 1) ∧
      g'.hasNode "u" = true ∧ g'.hasNode "v" = true ∧
      (Graph.empty.hasNode "u" = false → g'.nodeText "u" = some none) ∧
      (Graph.empty.hasNode "v" = false → g'.nodeText "v" = some none) :=
  c10_add_edge_fresh Graph.empty "u" "v" rfl

/-- C1 counterexample: on the site whose root links to `/a` while every
fetch of `/a` fails (the fetch of `/a` happens at time 3 of this crawl
and fails), the claim says no node and no incoming edge are ever created
for `/a`; the crawl nevertheless ends with `/a` as a node (without
`text_content`) and with the edge `("/", "/a")` of weight 1, because the
link loop calls `add_weighted_edge` unconditionally after the failed
recursive visit returns. -/
theorem c1_counterexample :
    fetchC1 3 "/a" = none ∧
    website_to_graph pathJoin fetchC1 5 "/" "/" "/" Graph.empty [] =
      .ok (⟨[("/", some "root text"), ("/a", none)], [(("/", "/a"), some 1)]⟩,
           [.fetch "/a", .extract "/", .fetch "/", .fetch "/"]) ∧
    Graph.hasNode ⟨[("/", some "root text"), ("/a", none)],
      [(("/", "/a"), some 1)]⟩ "/a" = true ∧
    Graph.hasEdge ⟨[("/", some "root text"), ("/a", none)],
      [(("/", "/a"), some 1)]⟩ "/" "/a" = true :=
  ⟨rfl, rfl, rfl, rfl⟩

/-- C1 (amended): a failed fetch aborts its branch with the graph
unchanged — the branch itself adds no node and no edge — but the caller
still runs `add_weighted_edge` into the failed URL, whose `add_edge`
auto-creates the missing endpoint node; consequently every graph a crawl
returns still satisfies the no-dangling-edges invariant: every edge's
source and target exist in the node set (the failed targets merely carry
no `text_content`). -/
theorem c1_no_dangling_edges :
    (∀ (uj : String → String → String) (fetch : Fetcher) (fuel : Nat)
        (root prev u : String) (g : Graph) (tr : List Ev),
        fetch tr.length u = none →
        website_to_graph uj fetch (fuel + 1) root prev u g tr =
          .ok (g, .fetch u :: tr)) ∧
    (∀ (uj : String → String → String) (fetch : Fetcher) (fuel : Nat)
        (root : String) (g : Graph) (tr : List Ev),
        website_to_graph uj fetch fuel root root root Graph.empty [] = .ok (g, tr) →
        g.NoDangling) := by
  constructor
  · intro uj fetch fuel root prev u g tr h
    rw [website_to_graph_succ, h]
  · intro uj fetch fuel root g tr h
    cases fuel with
    | zero => cases h
    | succ fuel =>
      exact (visit_specA uj fetch (fuel + 1) root root Graph.empty [] g tr rfl h).2.1
        (fun e he => absurd he (List.not_mem_nil e))

/-- C1 witness: the failed-branch clause at a direct visit of the
always-failing `/a`, and the invariant clause at the C1 crawl. -/
theorem c1_witness :
    website_to_graph pathJoin fetchC1 4 "/" "/" "/a" Graph.empty [] =
      .ok (Graph.empty, [Ev.fetch "/a"]) ∧
    Graph.NoDangling ⟨[("/", some "root text"), ("/a", none)],
      [(("/", "/a"), some 1)]⟩ :=
  ⟨c1_no_dangling_edges.1 pathJoin fetchC1 3 "/" "/" "/a" Graph.empty [] rfl,
   c1_no_dangling_edges.2 pathJoin fetchC1 5 "/" _ _ rfl⟩

/-- C2 counterexample: a fetcher whose behaviour varies over time — the
root fetch at time 0 succeeds, every later fetch fails.  The guarded
first fetch succeeds, but the second, unguarded fetch inside
`get_main_text` then raises, and the exception escapes the whole crawl:
the crawl neither runs to completion nor returns a graph, refuting "for
every behavior of the fetcher the crawl never raises". -/
theorem c2_counterexample :
    fetchC2 0 "/" = some ⟨[], "hello"⟩ ∧
    fetchC2 1 "/" = none ∧
    website_to_graph pathJoin fetchC2 5 "/" "/" "/" Graph.empty [] =
      .error .mainTextFetchError :=
  ⟨rfl, rfl, rfl⟩

/-- C2 (amended): for every fetcher that answers consistently (the same
URL always gets the same response), a crawl from the empty graph never
raises any exception other than Python's recursion-depth limit: it either
exhausts the recursion depth or runs to completion and returns the graph
built so far — in particular, fetch failures abort only their branch. -/
theorem c2_crawl_total (uj : String → String → String) (fetch : Fetcher)
    (hcons : fetch.Consistent) (fuel : Nat) (root : String) :
    website_to_graph uj fetch fuel root root root Graph.empty [] =
      .error .recursionError ∨
    ∃ g tr, website_to_graph uj fetch fuel root root root Graph.empty [] =
      .ok (g, tr) :=
  visit_total uj fetch hcons fuel root root Graph.empty []
    (fun e he => absurd he (List.not_mem_nil e))

/-- C2 witness: the single-page consistent site completes. -/
theorem c2_witness :
    website_to_graph pathJoin fetchC3 5 "/" "/" "/" Graph.empty [] =
      .error .recursionError ∨
    ∃ g tr, website_to_graph pathJoin fetchC3 5 "/" "/" "/" Graph.empty [] =
      .ok (g, tr) :=
  c2_crawl_total pathJoin fetchC3 (fun _ _ _ => rfl) 5 "/"

/-- C3 counterexample: even on a one-page site with no links at all, the
crawl fetches the root URL twice — once in `website_to_graph` and once
more inside `get_main_text` — refuting "each URL is fetched at most
once". -/
theorem c3_counterexample :
    website_to_graph pathJoin fetchC3 5 "/" "/" "/" Graph.empty [] =
      .ok (⟨[("/", some "hello")], []⟩, [.extract "/", .fetch "/", .fetch "/"]) ∧
    fetchCount [Ev.extract "/", Ev.fetch "/", Ev.fetch "/"] "/" = 2 ∧
    ¬ fetchCount [Ev.extract "/", Ev.fetch "/", Ev.fetch "/"] "/" ≤ 1 :=
  ⟨rfl, rfl, by decide⟩

/-- C3 (amended): during a single crawl each URL is *visited* at most
once — so it is fetched at most twice (once for link discovery and once
inside `get_main_text`) and has its text extracted at most once — even
when the URL is the target of links from several pages. -/
theorem c3_fetch_bound (uj : String → String → String) (fetch : Fetcher)
    (fuel : Nat) (root : String) (g : Graph) (tr : List Ev)
    (h : website_to_graph uj fetch fuel root root root Graph.empty [] = .ok (g, tr)) :
    ∀ u, fetchCount tr u ≤ 2 ∧ extractCount tr u ≤ 1 := by
  cases fuel with
  | zero => cases h
  | succ fuel =>
    rcases visit_specB uj fetch (fuel + 1) root root Graph.empty [] g tr
        (fun e he => absurd he (List.not_mem_nil e)) rfl h with ⟨δ, hδ, hshape⟩
    rw [List.append_nil] at hδ
    subst hδ
    intro u
    rcases hshape with htb | ⟨hδ2, _⟩
    · rcases htb u with ⟨a, b, _, _⟩
      exact ⟨a, b⟩
    · rw [hδ2]
      constructor
      · have : fetchCount [Ev.fetch root] u ≤ 1 :=
          List.length_filter_le _ [Ev.fetch root]
        omega
      · have : extractCount [Ev.fetch root] u = 0 := by
          simp [extractCount]
        omega

/-- C3 witness: the fetch and extract bounds on the cyclic three-page
crawl, at the URL `/a` that is the target of links from two pages. -/
theorem c3_witness :
    fetchCount [Ev.extract "/b", Ev.fetch "/b", Ev.fetch "/b", Ev.extract "/a",
      Ev.fetch "/a", Ev.fetch "/a", Ev.extract "/", Ev.fetch "/", Ev.fetch "/"]
      "/a" ≤ 2 ∧
    extractCount [Ev.extract "/b", Ev.fetch "/b", Ev.fetch "/b", Ev.extract "/a",
      Ev.fetch "/a", Ev.fetch "/a", Ev.extract "/", Ev.fetch "/", Ev.fetch "/"]
      "/a" ≤ 1 :=
  c3_fetch_bound pathJoin fetchC7 10 "/" _ _ rfl "/a"

/-- C7: the crawl terminates on every finite site — a fetcher that fails
outside a finite URL set `U` — because recursion into a URL happens only
when it is not yet a node and every successful visit adds its node before
following links, so a recursion depth of `|U| + 1` is never exhausted;
and on the cyclic site `/` to `/a` to `/b` with `/b` linking back to
`/a`, the crawl completes with the edge `("/b", "/a")` of weight 1
recorded. -/
theorem c7_termination :
    (∀ (uj : String → String → String) (fetch : Fetcher) (U : List String)
        (root : String) (fuel : Nat),
        fetch.SupportedBy U → U.length + 1 ≤ fuel →
        website_to_graph uj fetch fuel root root root Graph.empty [] ≠
          .error .recursionError) ∧
    website_to_graph pathJoin fetchC7 10 "/" "/" "/" Graph.empty [] =
      .ok (⟨[("/", some "r"), ("/a", some "a"), ("/b", some "b")],
            [(("/b", "/a"), some 1), (("/a", "/b"), some 1), (("/", "/a"), some 1)]⟩,
           [.extract "/b", .fetch "/b", .fetch "/b", .extract "/a", .fetch "/a",
            .fetch "/a", .extract "/", .fetch "/", .fetch "/"]) ∧
    Graph.edgeWeight ⟨[("/", some "r"), ("/a", some "a"), ("/b", some "b")],
        [(("/b", "/a"), some 1), (("/a", "/b"), some 1), (("/", "/a"), some 1)]⟩
      "/b" "/a" = some (some 1) := by
  refine ⟨?_, rfl, rfl⟩
  intro uj fetch U root fuel hsup hfuel
  apply visit_noRE uj fetch U hsup fuel root root Graph.empty [] rfl
  rw [missingCount_empty]
  exact hfuel

/-- C7 witness: the termination bound applied to the cyclic three-page
site with `U` its three URLs and recursion depth 10. -/
theorem c7_witness :
    website_to_graph pathJoin fetchC7 10 "/" "/" "/" Graph.empty [] ≠
      .error .recursionError :=
  c7_termination.1 pathJoin fetchC7 ["/", "/a", "/b"] "/" 10
    fetchC7_supported (by decide)
